import Mathlib

/-!
Verification of the spud-can penetration engine (`core/` of the spbu repository)
against its natural-language specification.

The Python source is shallowly embedded over `ℝ`: every float becomes a real
number, `None` becomes `Option.none`, numpy's `np.inf` (used only for the
safety ratios η₁/η₂, which are otherwise ordinary quotients) is modelled as
`Option.none` on the η fields, and pydantic construction-time validation is
modelled by smart constructors returning `Option`.  Functions are translated
one-for-one from `core/helpers.py`, `core/models.py`, `core/western/tables.py`,
`core/western/bearing.py`, `core/western/penetration.py` and
`core/russian/bearing.py`; Python loops become structural recursions carrying
the same accumulators.
-/

noncomputable section

open Classical in
/-- Classical decidability is used for the embedded `if` tests on reals and
records (Python compares floats directly). -/
instance (priority := low) specDecidable (p : Prop) : Decidable p :=
  Classical.propDecidable p

/-- Soil layer (`core/models.py`, class `SoilLayer`).  Fields not used by any
embedded computation (elastic modulus `E`, the group-II variants `phi_II`,
`c_II`, `gamma_prime_II`, which only feed the Russian design-resistance and
settlement paths) are omitted.  `cu = none` is Python `cu=None`; likewise `Rc`,
`drainage` and `soil_type`. -/
structure SoilLayer where
  name : String
  thickness : ℝ
  gamma_prime : ℝ
  phi : ℝ
  c : ℝ
  cu : Option ℝ := none
  Rc : Option ℝ := none
  drainage : Option String := none
  soil_type : Option String := none

instance : Inhabited SoilLayer := ⟨⟨"", 0, 0, 0, 0, none, none, none, none⟩⟩

/-- Pydantic validation constraints on `SoilLayer` (construction-time). -/
def SoilLayer.Valid (L : SoilLayer) : Prop :=
  0 < L.thickness ∧ 0 < L.gamma_prime ∧ 0 ≤ L.phi ∧ L.phi ≤ 45 ∧ 0 ≤ L.c ∧
    (∀ v ∈ L.cu, 0 ≤ v) ∧ (∀ r ∈ L.Rc, 0 < r)

/-- Python `layer.cu if layer.cu is not None else layer.c` (the loop bodies of
`average_cu_below` and `SoilProfileCache.from_layers`). -/
def cuVal (L : SoilLayer) : ℝ :=
  match L.cu with
  | some v => v
  | none => L.c

/-- Python `layer.cu or layer.c` (the degenerate branch of
`core/helpers.py::average_cu_below`): `or` falls through to `c` both when `cu`
is `None` and when `cu == 0.0` (float `0.0` is falsy). -/
def cuOrC (L : SoilLayer) : ℝ :=
  match L.cu with
  | some v => if v = 0 then L.c else v
  | none => L.c

/-- Foundation (`core/models.py`, class `Foundation`). -/
structure Foundation where
  area : ℝ
  e_x : ℝ := 0
  e_y : ℝ := 0
  V_spud : Option ℝ := none
  V_D : Option ℝ := none
  D_eff : Option ℝ := none
  beta : Option ℝ := none

namespace Foundation

/-- Width `b = √area` (circle equivalent). -/
def b (f : Foundation) : ℝ := Real.sqrt f.area

/-- Length `l = √area` (circle equivalent). -/
def l (f : Foundation) : ℝ := Real.sqrt f.area

/-- Reduced width `b' = max(0.01, b − 2·e_x)`. -/
def b_prime (f : Foundation) : ℝ := max 0.01 (f.b - 2 * f.e_x)

/-- Reduced length `l' = max(0.01, l − 2·e_y)`. -/
def l_prime (f : Foundation) : ℝ := max 0.01 (f.l - 2 * f.e_y)

/-- Reduced area `A' = b'·l'`. -/
def area_prime (f : Foundation) : ℝ := f.b_prime * f.l_prime

/-- Aspect ratio `η = max(1, l'/b')`. -/
def eta (f : Foundation) : ℝ := max 1 (f.l_prime / f.b_prime)

/-- Effective diameter `B_eff = √(4·A'/π)`. -/
def B_eff (f : Foundation) : ℝ := Real.sqrt (4 * f.area_prime / Real.pi)

end Foundation

/-- Reliability coefficients (`core/models.py`, class `Coefficients`). -/
structure Coefficients where
  gamma_n : ℝ := 1.25
  gamma_lc : ℝ := 1
  gamma_c1 : ℝ := 1
  gamma_c2 : ℝ := 1
  k : ℝ := 1
  use_backfill : Bool := false

/-- One depth sample (`core/models.py`, class `PointResult`).  The η fields are
`Option ℝ` with `none` standing for `np.inf`. -/
structure PointResult where
  d : ℝ
  Nu : ℝ
  R : ℝ
  p : ℝ
  eta1 : Option ℝ
  eta2 : Option ℝ
  layer_name : String

instance : Inhabited PointResult := ⟨⟨0, 0, 0, 0, none, none, ""⟩⟩

/-- Pydantic validation of `PointResult` (`d`, `Nu`, `R`, `p` all `ge=0`):
construction raises — modelled as `none` — on a negative field. -/
def mkPointResult (d Nu R p : ℝ) (eta1 eta2 : Option ℝ) (layer_name : String) :
    Option PointResult :=
  if 0 ≤ d ∧ 0 ≤ Nu ∧ 0 ≤ R ∧ 0 ≤ p then
    some ⟨d, Nu, R, p, eta1, eta2, layer_name⟩
  else none

/-- Python `self.eta1 <= 1.0` (`PointResult.is_safe_I` and the η₁-comparisons
in `core/western/penetration.py`); `np.inf ≤ 1` is false. -/
def safeI (pt : PointResult) : Prop :=
  match pt.eta1 with
  | some x => x ≤ 1
  | none => False

instance (pt : PointResult) : Decidable (safeI pt) := by
  unfold safeI
  match pt.eta1 with
  | some x => exact inferInstance
  | none => exact inferInstance

/-! ## `core/helpers.py` -/

/-- Total borehole thickness `sum(L.thickness for L in layers)`. -/
def totalThickness (layers : List SoilLayer) : ℝ :=
  (layers.map SoilLayer.thickness).sum

/-- Loop of `get_layer_at_depth`: first layer whose `[z, z+thickness]` interval
contains `depth`, scanning with the running top depth `z`. -/
def getLayerLoop (depth : ℝ) : List SoilLayer → ℝ → Option SoilLayer
  | [], _ => none
  | L :: rest, z =>
      if z ≤ depth ∧ depth ≤ z + L.thickness then some L
      else getLayerLoop depth rest (z + L.thickness)

/-- `core/helpers.py::get_layer_at_depth`: containing layer, the last layer
extrapolated past the total thickness, `None` otherwise. -/
def get_layer_at_depth (layers : List SoilLayer) (depth : ℝ) : Option SoilLayer :=
  match getLayerLoop depth layers 0 with
  | some L => some L
  | none =>
      if layers ≠ [] ∧ totalThickness layers < depth then layers.getLast?
      else none

/-- Loop of `core/helpers.py::overburden_stress`: consume `remaining` metres
through the layers, returning the accumulated `Σ γ'·h` together with the final
`remaining` (the loop `break`s once `remaining ≤ 0`). -/
def overburdenLoop : List SoilLayer → ℝ → ℝ × ℝ
  | [], rem => (0, rem)
  | L :: rest, rem =>
      if rem ≤ 0 then (0, rem)
      else
        let h := min L.thickness rem
        let s := overburdenLoop rest (rem - h)
        (L.gamma_prime * h + s.1, s.2)

/-- Python `layers[-1].gamma_prime` (0 when empty, never hit in the source). -/
def lastGamma (layers : List SoilLayer) : ℝ :=
  (layers.getLast?).elim 0 SoilLayer.gamma_prime

/-- `core/helpers.py::overburden_stress`: overburden pressure `σ_zg` at a
depth, extrapolating past the borehole with the last layer. -/
def overburden_stress (layers : List SoilLayer) (depth : ℝ) : ℝ :=
  if layers = [] ∨ depth ≤ 0 then 0
  else
    let s := overburdenLoop layers depth
    s.1 + (if 0 < s.2 then lastGamma layers * s.2 else 0)

/-- Shared loop shape of `average_cu_below` / `average_sand_props_below` /
`average_gamma_below` in `core/helpers.py`: walk the layers with running top
depth `z`, give each layer weight `h = min(z_bot, z_end) − max(z_top, z_start)`
and skip it when `h ≤ 0`; returns `(total_h, Σ f·h)`. -/
def windowAccum (f : SoilLayer → ℝ) (zs ze : ℝ) : List SoilLayer → ℝ → ℝ × ℝ
  | [], _ => (0, 0)
  | L :: rest, z =>
      let h := min (z + L.thickness) ze - max z zs
      let s := windowAccum f zs ze rest (z + L.thickness)
      if h ≤ 0 then s else (s.1 + h, s.2 + f L * h)

/-- Python `layers[-1]` mapped through `g` (0 default, never hit where used). -/
def lastVal (g : SoilLayer → ℝ) (layers : List SoilLayer) : ℝ :=
  (layers.getLast?).elim 0 g

/-- Extrapolation step shared by the windowed averages: when the window end
`ze` sticks out past the borehole, extend with the last layer's value over
`extra = ze − max(total_depth, z_start)`. -/
def windowExtra (g : SoilLayer → ℝ) (layers : List SoilLayer) (zs ze : ℝ)
    (acc : ℝ × ℝ) : ℝ × ℝ :=
  if totalThickness layers < ze then
    let extra := ze - max (totalThickness layers) zs
    if 0 < extra then (acc.1 + extra, acc.2 + lastVal g layers * extra) else acc
  else acc

/-- `core/helpers.py::average_cu_below`: weighted average of `cu` (falling back
to `c` per layer) over the window `[d, d + z_thickness)`.  The degenerate
branch returns Python `layers[-1].cu or layers[-1].c`. -/
def average_cu_below (layers : List SoilLayer) (d z_thickness : ℝ) : ℝ :=
  if layers = [] ∨ z_thickness ≤ 0 then
    (layers.getLast?).elim 0 cuOrC
  else
    let acc := windowExtra cuVal layers d (d + z_thickness)
      (windowAccum cuVal d (d + z_thickness) layers 0)
    if 0 < acc.1 then acc.2 / acc.1 else 0

/-- `core/helpers.py::average_sand_props_below`: weighted averages of `(φ, γ')`
over the window, with neutral defaults `(30, 10)` for an empty profile. -/
def average_sand_props_below (layers : List SoilLayer) (d z_thickness : ℝ) :
    ℝ × ℝ :=
  if layers = [] ∨ z_thickness ≤ 0 then
    match layers.getLast? with
    | some L => (L.phi, L.gamma_prime)
    | none => (30, 10)
  else
    let accPhi := windowExtra SoilLayer.phi layers d (d + z_thickness)
      (windowAccum SoilLayer.phi d (d + z_thickness) layers 0)
    let accGamma := windowExtra SoilLayer.gamma_prime layers d (d + z_thickness)
      (windowAccum SoilLayer.gamma_prime d (d + z_thickness) layers 0)
    if accPhi.1 ≤ 0 then
      ((layers.getLast?).elim 0 SoilLayer.phi,
       (layers.getLast?).elim 0 SoilLayer.gamma_prime)
    else (accPhi.2 / accPhi.1, accGamma.2 / accGamma.1)

/-- Soil-type tags classified as undrained (`UNDRAINED_SOIL_TYPES`). -/
def undrainedSoilTypes : List String :=
  ["clay", "clay_soft", "clay_plastic", "clay_stiff", "silty_clay", "organic",
   "peat"]

/-- Soil-type tags classified as drained (`DRAINED_SOIL_TYPES`). -/
def drainedSoilTypes : List String :=
  ["sand", "sand_fine", "sand_medium", "sand_coarse", "gravel", "rock"]

/-- Soil-type tags requiring the dual computation (`DUAL_DRAINAGE_SOIL_TYPES`). -/
def dualDrainageSoilTypes : List String :=
  ["silt", "sandy_silt", "silty_sand"]

/-- `core/helpers.py::get_drainage` (lower-casing is dropped: the embedded
tags are the exact table strings). -/
def get_drainage (L : SoilLayer) : String :=
  match L.drainage with
  | some s => s
  | none =>
      let st := (L.soil_type).getD ""
      if st ∈ undrainedSoilTypes then "undrained"
      else if st ∈ drainedSoilTypes then "drained"
      else if st ∈ dualDrainageSoilTypes then "undrained"
      else
        -- Python `layer.cu and layer.cu > 0` (None and 0.0 are falsy)
        match L.cu with
        | some v => if 0 < v then "undrained" else "drained"
        | none => "drained"

/-- `core/helpers.py::is_dual_drainage`. -/
def is_dual_drainage (L : SoilLayer) : Prop :=
  (L.soil_type).getD "" ∈ dualDrainageSoilTypes

instance (L : SoilLayer) : Decidable (is_dual_drainage L) := by
  unfold is_dual_drainage; exact inferInstance

/-- `core/helpers.py::spud_cone_volume`: `Vs = π/24·D_eff³·tan(β/2)` (β in
degrees). -/
def spud_cone_volume (D_eff beta_deg : ℝ) : ℝ :=
  if D_eff ≤ 0 ∨ beta_deg ≤ 0 then 0
  else Real.pi / 24 * D_eff ^ 3 * Real.tan (beta_deg / 2 * (Real.pi / 180))

/-- `core/helpers.py::cavity_depth_ratio`: `S^0.55 − 0.25·S` with
`S = (su_m/(γ'·B))·max(0, 1 − p/γ')`. -/
def cavity_depth_ratio (su_m gamma_prime B p : ℝ) : ℝ :=
  if gamma_prime ≤ 0 ∨ B ≤ 0 then 0
  else
    let S := su_m / (gamma_prime * B) * max 0 (1 - p / gamma_prime)
    if 0 < S then S ^ (0.55 : ℝ) - 0.25 * S else 0

/-- `core/helpers.py::cavity_depth`: `Hcav = max(0, ratio·B)`. -/
def cavity_depth (su_m gamma_prime B p : ℝ) : ℝ :=
  max 0 (cavity_depth_ratio su_m gamma_prime B p * B)

/-- `core/helpers.py::min_backfill_weight`:
`Wbf = max(0, γ'·(A·max(0, D−Hcav) − (Vspud−VD)))`. -/
def min_backfill_weight (gamma_prime A D H_cav V_spud V_D : ℝ) : ℝ :=
  if gamma_prime ≤ 0 then 0
  else max 0 (gamma_prime * (A * max 0 (D - H_cav) - (V_spud - V_D)))

/-- `core/helpers.py::buoyancy_force`: `Bs = γ'·max(0, V_displaced)`. -/
def buoyancy_force (gamma_prime V_displaced : ℝ) : ℝ :=
  gamma_prime * max 0 V_displaced

/-- Layer `cu` values (the per-layer `cu`-or-`c` fallback) of the layers whose
overlap with the window `[zs, ze)` is positive, in borehole order. -/
def windowCuVals (zs ze : ℝ) : List SoilLayer → ℝ → List ℝ
  | [], _ => []
  | L :: rest, z =>
      let h := min (z + L.thickness) ze - max z zs
      let tail := windowCuVals zs ze rest (z + L.thickness)
      if h ≤ 0 then tail else cuVal L :: tail

/-- Modelled from the spec: `cu_variability_ratio` is imported by
`core/western/bearing.py` and exercised by `tests/test_western_cu_variability.py`
but its definition is missing from the source tree (`core/helpers.py` does not
define it).  Per §4.1 of the spec it is the "coefficient of variability of cu
over a window, computed as (max−min)/mean of layer cu values weighted/sampled
over the window": max and min over the cu values of the layers met by the
window `[d, d+z_thickness)`, mean the overlap-weighted `average_cu_below`,
and 0 on a degenerate window or nonpositive mean. -/
def cu_variability (layers : List SoilLayer) (d z_thickness : ℝ) : ℝ :=
  match windowCuVals d (d + z_thickness) layers 0 with
  | [] => 0
  | v :: vs =>
      let mean := average_cu_below layers d z_thickness
      if 0 < mean then ((vs.foldl max v) - (vs.foldl min v)) / mean else 0

/-! ## `core/models.py::SoilProfileCache` -/

/-- Cached profile index (`core/models.py`, class `SoilProfileCache`). -/
structure SoilProfileCache where
  layers : List SoilLayer
  boundaries : List ℝ
  gamma_prime : List ℝ
  phi : List ℝ
  cu : List ℝ
  total_thickness : ℝ
  cum_gamma : List ℝ

/-- `SoilProfileCache.from_layers`: cumulative depth boundaries and per-layer
property arrays.  The accumulation loops building `boundaries` and `cum_gamma`
are `List.scanl` runs (prefix sums starting at 0); `total_thickness` is the
last boundary, i.e. the total of the thicknesses. -/
def SoilProfileCache.from_layers (layers : List SoilLayer) : SoilProfileCache :=
  if layers = [] then ⟨[], [0], [], [], [], 0, [0]⟩
  else
    { layers := layers
      boundaries := (layers.map SoilLayer.thickness).scanl (· + ·) 0
      gamma_prime := layers.map SoilLayer.gamma_prime
      phi := layers.map SoilLayer.phi
      cu := layers.map cuVal
      total_thickness := totalThickness layers
      cum_gamma :=
        (layers.map (fun L => L.gamma_prime * L.thickness)).scanl (· + ·) 0 }

namespace SoilProfileCache

/-- `SoilProfileCache._layer_index`.  `bisect_left(boundaries, depth)` on the
sorted `boundaries` array is the number of boundaries strictly below `depth`,
i.e. the length of the `takeWhile (· < depth)` prefix. -/
def layerIndex (c : SoilProfileCache) (depth : ℝ) : ℕ :=
  if c.gamma_prime = [] then 0
  else if depth ≤ 0 then 0
  else if c.total_thickness ≤ depth then c.gamma_prime.length - 1
  else
    let idx := (c.boundaries.takeWhile (fun b => decide (b < depth))).length - 1
    min idx (c.gamma_prime.length - 1)

/-- `SoilProfileCache.overburden_stress`: prefix sum plus the partial segment,
extrapolating with the last γ' beyond the profile. -/
def overburden_stress (c : SoilProfileCache) (depth : ℝ) : ℝ :=
  if depth ≤ 0 ∨ c.gamma_prime = [] then 0
  else if c.total_thickness ≤ depth then
    c.cum_gamma.getLastD 0 + c.gamma_prime.getLastD 0 * (depth - c.total_thickness)
  else
    let idx := c.layerIndex depth
    c.cum_gamma.getD idx 0 + c.gamma_prime.getD idx 0 * (depth - c.boundaries.getD idx 0)

/-- Indexed loop `for i in range(start_idx, end_idx + 1)` shared by the cached
windowed averages: overlap weights from the `boundaries` array, with `h ≤ 0`
segments skipped; returns `(total_h, Σ vals[i]·h)`. -/
def idxAccum (c : SoilProfileCache) (vals : List ℝ) (zs ze : ℝ) (lo hi : ℕ) :
    ℝ × ℝ :=
  (List.range' lo (hi + 1 - lo)).foldr
    (fun i acc =>
      let h := min (c.boundaries.getD (i + 1) 0) ze - max (c.boundaries.getD i 0) zs
      if h ≤ 0 then acc else (acc.1 + h, acc.2 + vals.getD i 0 * h))
    (0, 0)

/-- Extrapolation step of the cached windowed averages (mirrors the uncached
one, with `vals[-1]` as the extension value). -/
def idxExtra (c : SoilProfileCache) (vals : List ℝ) (zs ze : ℝ) (acc : ℝ × ℝ) :
    ℝ × ℝ :=
  if c.total_thickness < ze then
    let extra := ze - max c.total_thickness zs
    if 0 < extra then (acc.1 + extra, acc.2 + vals.getLastD 0 * extra) else acc
  else acc

/-- `SoilProfileCache.average_cu_below`. -/
def average_cu_below (c : SoilProfileCache) (d z_thickness : ℝ) : ℝ :=
  if c.cu = [] ∨ z_thickness ≤ 0 then c.cu.getLastD 0
  else
    let zs := d
    let ze := d + z_thickness
    let lo := c.layerIndex zs
    let hi := c.layerIndex (min ze c.total_thickness)
    let acc := c.idxExtra c.cu zs ze (c.idxAccum c.cu zs ze lo hi)
    if 0 < acc.1 then acc.2 / acc.1 else 0

/-- `SoilProfileCache.average_sand_props_below`. -/
def average_sand_props_below (c : SoilProfileCache) (d z_thickness : ℝ) :
    ℝ × ℝ :=
  if c.phi = [] ∨ c.gamma_prime = [] ∨ z_thickness ≤ 0 then
    if c.phi ≠ [] ∧ c.gamma_prime ≠ [] then (c.phi.getLastD 0, c.gamma_prime.getLastD 0)
    else (30, 10)
  else
    let zs := d
    let ze := d + z_thickness
    let lo := c.layerIndex zs
    let hi := c.layerIndex (min ze c.total_thickness)
    let accPhi := c.idxExtra c.phi zs ze (c.idxAccum c.phi zs ze lo hi)
    let accGamma := c.idxExtra c.gamma_prime zs ze (c.idxAccum c.gamma_prime zs ze lo hi)
    if accPhi.1 ≤ 0 then (c.phi.getLastD 0, c.gamma_prime.getLastD 0)
    else (accPhi.2 / accPhi.1, accGamma.2 / accGamma.1)

end SoilProfileCache

/-! ## `core/western/tables.py` -/

/-- Bearing-capacity factor for clays, `NC_CLAY = 5.14`. -/
def NC_CLAY : ℝ := 5.14

/-- Degrees to radians, `np.radians`. -/
def radians (x : ℝ) : ℝ := x * (Real.pi / 180)

/-- `core/western/tables.py::clay_factor_iso_table_23_1`: piecewise-linear
interpolation of the table `D/B ∈ {0, 0.1, 0.25, 0.5, 1.0, 2.5} ↦
{6.0, 6.3, 6.6, 7.0, 7.7, 9.0}`, clamped outside.  The Python scan over the
constant node table is unrolled; `ℝ` has no non-finite values, so the
`np.isfinite` guard is vacuous here. -/
def clay_factor_iso_table_23_1 (D_over_B : ℝ) : ℝ :=
  if D_over_B ≤ 0 then 6
  else if 2.5 ≤ D_over_B then 9
  else if 0 ≤ D_over_B ∧ D_over_B ≤ 0.1 then
    6 + (D_over_B - 0) / (0.1 - 0) * (6.3 - 6)
  else if 0.1 ≤ D_over_B ∧ D_over_B ≤ 0.25 then
    6.3 + (D_over_B - 0.1) / (0.25 - 0.1) * (6.6 - 6.3)
  else if 0.25 ≤ D_over_B ∧ D_over_B ≤ 0.5 then
    6.6 + (D_over_B - 0.25) / (0.5 - 0.25) * (7 - 6.6)
  else if 0.5 ≤ D_over_B ∧ D_over_B ≤ 1 then
    7 + (D_over_B - 0.5) / (1 - 0.5) * (7.7 - 7)
  else if 1 ≤ D_over_B ∧ D_over_B ≤ 2.5 then
    7.7 + (D_over_B - 1) / (2.5 - 1) * (9 - 7.7)
  else 9

/-- `core/western/tables.py::bearing_factors_sand`: `(Nγ, Nq)` with
`Nq = e^(π·tanφ)·tan²(45°+φ/2)`, `Nγ = 2(Nq+1)·tanφ`. -/
def bearing_factors_sand (phi_deg : ℝ) : ℝ × ℝ :=
  if phi_deg ≤ 0 then (0, 1)
  else
    let t := Real.tan (radians phi_deg)
    let n_q := Real.exp (Real.pi * t) * Real.tan (radians 45 + radians phi_deg / 2) ^ 2
    (2 * (n_q + 1) * t, n_q)

/-- `core/western/tables.py::shape_factor_clay`: `sc = 1 + (1/Nc)·(B/L)`. -/
def shape_factor_clay (B L : ℝ) : ℝ :=
  if L ≤ 0 then 1 + 1 / NC_CLAY else 1 + 1 / NC_CLAY * (B / L)

/-- `core/western/tables.py::shape_factors_sand`: `(sγ, sq)`. -/
def shape_factors_sand (B L phi_deg : ℝ) : ℝ × ℝ :=
  let ratio := if L ≤ 0 then 1 else B / L
  (max 0.6 (1 - 0.4 * ratio), 1 + ratio * Real.tan (radians phi_deg))

/-- `core/western/tables.py::depth_factors_sand`: `(dγ, dq)` with the
arctangent transition past `D/B = 1`. -/
def depth_factors_sand (D B phi_deg : ℝ) : ℝ × ℝ :=
  if B ≤ 0 ∨ phi_deg ≤ 0 then (1, 1)
  else
    let t := Real.tan (radians phi_deg)
    let s := Real.sin (radians phi_deg)
    let factor := 2 * t * (1 - s) ^ 2
    let ratio := D / B
    (1, if ratio ≤ 1 then 1 + factor * ratio else 1 + factor * Real.arctan ratio)

/-- `core/western/tables.py::punch_through_coefficient_Ks`:
`Ks = 3·cu/(B·γ'·tanφ)`. -/
def punch_through_coefficient_Ks (cu gamma_prime B phi_deg : ℝ) : ℝ :=
  if B ≤ 0 ∨ gamma_prime ≤ 0 ∨ phi_deg ≤ 0 then 0
  else
    let t := Real.tan (radians phi_deg)
    if t ≤ 0 then 0 else 3 * cu / (B * gamma_prime * t)

/-! ## `core/western/bearing.py` -/

/-- `core/western/bearing.py::_min_positive`: minimum of the strictly positive
entries, 0 when there are none. -/
def minPositive (values : List ℝ) : ℝ :=
  match values.filter (fun v => decide (0 < v)) with
  | [] => 0
  | v :: vs => vs.foldl min v

/-- Clipped per-layer window used by the layered analysis
(`core/western/bearing.py`, dataclass `LayerWindow`).  Note the source builds
`cu` with the truthy `lyr.cu if lyr.cu else lyr.c`. -/
structure LayerWindow where
  layer : SoilLayer
  z_top : ℝ
  z_bot : ℝ
  H : ℝ
  drainage : String
  is_dual : Bool
  cu : ℝ
  phi : ℝ
  gamma : ℝ

/-- `core/western/bearing.py::bearing_capacity_clay` (C.2.7): averaged `cu`
over a zone chosen by the cu-variability rule, ISO table 2.3-1 multiplier. -/
def bearing_capacity_clay (layers : List SoilLayer) (f : Foundation) (d : ℝ) : ℝ :=
  match get_layer_at_depth layers d with
  | none => 0
  | some layer =>
      let B := f.B_eff
      let A := f.area_prime
      let influence := if 0.5 < cu_variability layers d B then B else 0.5 * B
      let cu0 := average_cu_below layers d influence
      let cu1 := if cu0 ≤ 0 then cuVal layer else cu0
      if cu1 ≤ 0 then 0
      else
        let p0 := overburden_stress layers d
        let ncsdc := clay_factor_iso_table_23_1 (if 0 < B then d / B else 0)
        (cu1 * ncsdc + p0) * A

/-- `core/western/bearing.py::bearing_capacity_sand` (C.2.9). -/
def bearing_capacity_sand (layers : List SoilLayer) (f : Foundation) (d : ℝ) : ℝ :=
  match get_layer_at_depth layers d with
  | none => 0
  | some layer =>
      let B := f.B_eff
      let A := f.area_prime
      let pg := average_sand_props_below layers d B
      let phi := if pg.1 ≤ 0 then layer.phi else pg.1
      if phi ≤ 0 then 0
      else
        let N := bearing_factors_sand phi
        let s := shape_factors_sand B B phi
        let dd := depth_factors_sand d B phi
        let p0 := overburden_stress layers d
        (0.5 * pg.2 * B * N.1 * s.1 * dd.1 + p0 * N.2 * s.2 * dd.2) * A

/-- `core/western/bearing.py::bearing_capacity_squeezing` (C.2.12–C.2.13). -/
def bearing_capacity_squeezing (layers : List SoilLayer) (f : Foundation)
    (d T cu_weak : ℝ) (use_backflow : Bool) : ℝ :=
  let B := f.B_eff
  let A := f.area_prime
  if T ≤ 0 ∨ cu_weak ≤ 0 ∨ B ≤ 0 ∨ A ≤ 0 then 0
  else
    let ratio := d / B
    let k_iso := if ratio ≤ 2.5 then 1.025 else 1.1
    if B < 3.45 * T * (1 + k_iso * ratio) then 0
    else
      let sc := shape_factor_clay B B
      let dc := 1 + 0.2 * (d / B)
      let p0 := overburden_stress layers d
      let squeeze_factor := 5 + 0.33 * (B / T) + 1.2 * (d / B)
      let add := if use_backflow then 0 else p0
      min (A * (squeeze_factor * cu_weak + add)) (A * (NC_CLAY * sc * dc * cu_weak + add))

/-- `core/western/bearing.py::bearing_capacity_punch_through_clay`
(C.2.14–C.2.16). -/
def bearing_capacity_punch_through_clay (layers : List SoilLayer) (f : Foundation)
    (d H cu_top cu_bottom : ℝ) (use_backflow : Bool) : ℝ :=
  let B := f.B_eff
  let A := f.area_prime
  if B ≤ 0 ∨ A ≤ 0 ∨ cu_top ≤ 0 then 0
  else
    let sc := shape_factor_clay B B
    let p0 := overburden_stress layers d
    let Fv_c214 := min (A * (3 * (H / B) * cu_top + NC_CLAY * sc * cu_bottom))
      (A * (NC_CLAY * sc * cu_top))
    let dc_bottom := if 0 < B then 1 + 0.2 * ((d + H) / B) else 1
    let add := if use_backflow then 0 else p0
    let Fv_left := A * (3 * (H / B) * cu_top + NC_CLAY * sc * dc_bottom * cu_bottom + add)
    let Fv_right := A * (cu_top * clay_factor_iso_table_23_1 (d / B) + add)
    min Fv_c214 (min Fv_left Fv_right)

/-- `core/western/bearing.py::_punch_through_load_spread` (C.2.20). -/
def punchThroughLoadSpread (layers : List SoilLayer) (f : Foundation)
    (d H_sand gamma_sand cu_clay n : ℝ) : ℝ :=
  let B := f.B_eff
  let L := B
  let A := f.area_prime
  if H_sand ≤ 0 ∨ cu_clay ≤ 0 then 0
  else
    let B_star := B + 2 * H_sand / n
    let A_star := (1 + 2 * H_sand / (n * B)) ^ 2 * A
    let sc := shape_factor_clay B_star (L + 2 * H_sand / n)
    let p0 := overburden_stress layers (d + H_sand)
    let Fv_b := (cu_clay * NC_CLAY * sc + p0) * A_star
    let W := A_star * H_sand * gamma_sand
    max 0 (Fv_b - W)

/-- `core/western/bearing.py::_punch_through_ks_shear` (C.2.19). -/
def punchThroughKsShear (layers : List SoilLayer) (f : Foundation)
    (d H_sand phi_sand gamma_sand cu_clay : ℝ) : ℝ :=
  let B := f.B_eff
  if H_sand ≤ 0 ∨ cu_clay ≤ 0 ∨ phi_sand ≤ 0 then 0
  else
    let Qv_clay := bearing_capacity_clay layers f (d + H_sand)
    let Ks := punch_through_coefficient_Ks cu_clay gamma_sand B phi_sand
    let T_side := Ks * Real.tan (radians phi_sand) * (gamma_sand * H_sand / 2) *
      (Real.pi * B * H_sand)
    max 0 (Qv_clay + T_side)

/-- `core/western/bearing.py::_punch_through_backflow_method` (C.2.17–C.2.18):
no-back-flow value minus the back-flow column weight `A·I·γ'`. -/
def punchThroughBackflowMethod (layers : List SoilLayer) (f : Foundation)
    (d H_sand phi_sand gamma_sand cu_clay backflow_height : ℝ) : ℝ :=
  let B := f.B_eff
  let A := f.area_prime
  if B ≤ 0 ∨ A ≤ 0 ∨ H_sand ≤ 0 ∨ gamma_sand ≤ 0 ∨ phi_sand ≤ 0 ∨ cu_clay ≤ 0 then 0
  else
    let p0 := overburden_stress layers d
    let z_clay := d + H_sand
    let cu_b0 := average_cu_below layers z_clay (0.5 * B)
    let cu_b := if cu_b0 ≤ 0 then (get_layer_at_depth layers z_clay).elim 0 cuVal else cu_b0
    let p0_clay := overburden_stress layers z_clay
    let Fv_b := (cu_b * clay_factor_iso_table_23_1 0 + p0_clay) * A
    let Ks_tan_phi := 3 * cu_clay / (B * gamma_sand)
    let term := 2 * (H_sand / B) * (H_sand * gamma_sand + 2 * p0) * Ks_tan_phi * A
    let W_plug := A * H_sand * gamma_sand
    let W_backflow := A * max 0 backflow_height * gamma_sand
    max 0 (Fv_b - W_plug - W_backflow + term)

/-- `core/western/bearing.py::bearing_capacity_punch_through_sand_clay`
(C.2.19–C.2.20): minimum of the positive candidates among the back-flow
method, load spread at `n = 3` and `n = 5` (their minimum) and the Ks-shear
method. -/
def bearing_capacity_punch_through_sand_clay (layers : List SoilLayer)
    (f : Foundation) (d H_sand phi_sand gamma_sand cu_clay : ℝ)
    (use_backflow : Bool) : ℝ :=
  if H_sand ≤ 0 ∨ cu_clay ≤ 0 then 0
  else
    let backflow_height := if use_backflow then max 0 d else 0
    let Fv_bf := punchThroughBackflowMethod layers f d H_sand phi_sand gamma_sand
      cu_clay backflow_height
    let Fv_ls := min (punchThroughLoadSpread layers f d H_sand gamma_sand cu_clay 3)
      (punchThroughLoadSpread layers f d H_sand gamma_sand cu_clay 5)
    let Fv_ks := punchThroughKsShear layers f d H_sand phi_sand gamma_sand cu_clay
    match [Fv_bf, Fv_ls, Fv_ks].filter (fun v => decide (0 < v)) with
    | [] => 0
    | v :: vs => vs.foldl min v

/-- Loop of `core/western/bearing.py::_collect_layer_params`: clip every layer
to the influence window, skipping layers above the base, stopping at the first
layer past the window or once `max_layers` windows are collected. -/
def collectLayerParamsGo (d influence : ℝ) (maxLayers : ℕ) :
    List SoilLayer → ℝ → ℕ → List LayerWindow
  | [], _, _ => []
  | L :: rest, z, cnt =>
      let z_bot := z + L.thickness
      if z_bot ≤ d then collectLayerParamsGo d influence maxLayers rest z_bot cnt
      else if d + influence ≤ z then []
      else
        let zt := max z d
        let zb := min z_bot (d + influence)
        let w : LayerWindow :=
          ⟨L, zt, zb, zb - zt, get_drainage L, decide (is_dual_drainage L),
           cuOrC L, L.phi, L.gamma_prime⟩
        if maxLayers ≤ cnt + 1 then [w]
        else w :: collectLayerParamsGo d influence maxLayers rest z_bot (cnt + 1)

/-- `core/western/bearing.py::_collect_layer_params`. -/
def collectLayerParams (layers : List SoilLayer) (d influence : ℝ)
    (maxLayers : ℕ) : List LayerWindow :=
  collectLayerParamsGo d influence maxLayers layers 0 0

/-- `core/western/bearing.py::_two_layer_results`: candidate capacities for a
two-layer scheme over the drainage combinations (both branches of a dual
drainage layer when `allow_dual`). -/
def twoLayerResults (layers : List SoilLayer) (f : Foundation) (d : ℝ)
    (top bottom : LayerWindow) (use_backfill : Bool)
    (include_general_shear allow_dual : Bool) : List ℝ :=
  let dts := if allow_dual ∧ top.is_dual then ["drained", "undrained"]
    else [top.drainage]
  let dbs := if allow_dual ∧ bottom.is_dual then ["drained", "undrained"]
    else [bottom.drainage]
  dts.flatMap (fun dt =>
    (if include_general_shear then
      [if dt = "undrained" then bearing_capacity_clay layers f d
       else bearing_capacity_sand layers f d]
     else [])
    ++ dbs.flatMap (fun db =>
        (if dt = "drained" ∧ db = "undrained" then
          [bearing_capacity_punch_through_sand_clay layers f d top.H top.phi
            top.gamma bottom.cu use_backfill]
         else [])
        ++ (if dt = "undrained" ∧ db = "undrained" then
            (if bottom.cu < top.cu then
              [bearing_capacity_punch_through_clay layers f d top.H top.cu
                bottom.cu use_backfill]
             else if top.cu < bottom.cu then
              [bearing_capacity_squeezing layers f d top.H top.cu use_backfill]
             else [])
           else [])))

/-- `core/western/bearing.py::bearing_capacity_three_layer` (C.2.3.4.4). -/
def bearing_capacity_three_layer (layers : List SoilLayer) (f : Foundation)
    (d : ℝ) (layer_params : List LayerWindow) (use_backfill : Bool) : ℝ :=
  match layer_params with
  | lp1 :: lp2 :: lp3 :: _ =>
      let r1 := twoLayerResults layers f d lp1 lp2 use_backfill false false
      let r2 := twoLayerResults layers f lp2.z_top lp2 lp3 use_backfill false false
      let gs := if lp1.drainage = "undrained" then bearing_capacity_clay layers f d
        else bearing_capacity_sand layers f d
      minPositive (r1 ++ r2 ++ [gs])
  | _ => 0

/-- `core/western/bearing.py::bearing_capacity_Qv`. -/
def bearing_capacity_Qv (layers : List SoilLayer) (f : Foundation) (d : ℝ)
    (use_backfill : Bool) : ℝ :=
  match get_layer_at_depth layers d with
  | none => 0
  | some layer =>
      let lps := collectLayerParams layers d (1.5 * f.B_eff) 3
      if lps.length ≤ 1 then
        if is_dual_drainage layer then
          let Qv_clay := bearing_capacity_clay layers f d
          let Qv_sand := bearing_capacity_sand layers f d
          if 0 < Qv_clay ∧ 0 < Qv_sand then min Qv_clay Qv_sand
          else if 0 < Qv_clay then Qv_clay else Qv_sand
        else if get_drainage layer = "undrained" then bearing_capacity_clay layers f d
        else bearing_capacity_sand layers f d
      else if 3 ≤ lps.length then
        bearing_capacity_three_layer layers f d lps use_backfill
      else
        match lps with
        | lp1 :: lp2 :: _ =>
            minPositive (twoLayerResults layers f d lp1 lp2 use_backfill true true)
        | _ => 0

/-- Python truthiness of an optional float (`None` and `0.0` are falsy). -/
def optTruthy (o : Option ℝ) : Prop :=
  match o with
  | some v => v ≠ 0
  | none => False

/-- `core/western/bearing.py::bearing_capacity_Vl` (C.2.1–C.2.2): buoyancy and
optional backfill applied on top of `Qv`. -/
def bearing_capacity_Vl (layers : List SoilLayer) (f : Foundation) (d F : ℝ)
    (use_backfill : Bool) : ℝ :=
  let Qv := bearing_capacity_Qv layers f d use_backfill
  let gamma := (get_layer_at_depth layers d).elim 10 SoilLayer.gamma_prime
  let V_displaced :=
    match f.V_D with
    | some v => v
    | none =>
        let base := f.area_prime * d
        if optTruthy f.D_eff ∧ optTruthy f.beta then
          base + spud_cone_volume (f.D_eff.getD 0) (f.beta.getD 0)
        else base
  let Bs := buoyancy_force gamma V_displaced
  if use_backfill = false then Qv + Bs
  else
    let su_m := (get_layer_at_depth layers 0).elim 0 cuOrC
    let p := if 0 < f.area_prime ∧ 0 < F then F / f.area_prime else 0
    let H_cav := if 0 < su_m then cavity_depth su_m gamma f.B_eff p else 0
    let Wbf := min_backfill_weight gamma f.area_prime d H_cav (f.V_spud.getD 0)
      (f.V_D.getD 0)
    Qv - Wbf + Bs

/-! ## `core/western/penetration.py` -/

/-- `core/western/penetration.py::calculate_point`: one Western depth sample;
the sentinel row is produced when no layer is found, and pydantic validation
of the constructed `PointResult` can still fail (modelled by `Option`). -/
def calculate_point (layers : List SoilLayer) (f : Foundation)
    (coef : Coefficients) (F d : ℝ) : Option PointResult :=
  match get_layer_at_depth layers d with
  | none => mkPointResult d 0 0 0 (some 999) (some 999) "Unknown"
  | some layer =>
      let Vl := bearing_capacity_Vl layers f d F coef.use_backfill
      let p := F / f.area_prime
      let R := if 0 < f.area_prime then Vl / f.area_prime else 0
      let eta1 := if 0 < Vl then some (F / Vl) else none
      let eta2 := if 0 < R then some (p / R) else none
      mkPointResult d Vl R p eta1 eta2 layer.name

/-- `np.arange(start, stop, step)` for a positive step. -/
def arange (start stop step : ℝ) : List ℝ :=
  (List.range (Nat.ceil ((stop - start) / step))).map (fun i => start + i * step)

/-- `core/western/penetration.py::penetration_curve`; `none` when any sample
fails validation. -/
def penetration_curve (layers : List SoilLayer) (f : Foundation)
    (coef : Coefficients) (F d_max d_step : ℝ) : Option (List PointResult) :=
  (arange d_step (d_max + d_step / 2) d_step).mapM (calculate_point layers f coef F)

/-- Python `res.eta1 > 1.0` (`np.inf > 1` holds). -/
def unstablePt (pt : PointResult) : Prop :=
  match pt.eta1 with
  | some x => 1 < x
  | none => True

instance (pt : PointResult) : Decidable (unstablePt pt) := by
  unfold unstablePt
  match pt.eta1 with
  | some x => exact inferInstance
  | none => exact inferInstance

/-- `safe_indices = [i for i, res in enumerate(curve) if res.eta1 <= 1.0]`. -/
def safeIndices (curve : List PointResult) : List ℕ :=
  (List.range curve.length).filter (fun i => decide (safeI (curve.getD i default)))

/-- Backward scan of `find_equilibrium_depth`: over the reversed safe indices,
return `curve[idx]` at the first index with no instability strictly below. -/
def eqScan (curve : List PointResult) : List ℕ → Option PointResult
  | [] => none
  | i :: rest =>
      if (curve.drop (i + 1)).any (fun pt => decide (unstablePt pt)) then
        eqScan curve rest
      else curve.get? i

/-- Search part of `core/western/penetration.py::find_equilibrium_depth`
(everything after the curve is built; the source assigns
`curve = penetration_curve(...)` first and only scans it afterwards). -/
def find_equilibrium_depth_on (curve : List PointResult) : Option PointResult :=
  if curve = [] then none
  else
    let safe := safeIndices curve
    if safe = [] then none
    else
      match eqScan curve safe.reverse with
      | some pt => some pt
      | none => curve.get? (safe.getLastD 0)

/-- `core/western/penetration.py::find_equilibrium_depth` composed with the
curve construction. -/
def find_equilibrium_depth (layers : List SoilLayer) (f : Foundation)
    (coef : Coefficients) (F d_max d_step : ℝ) : Option (Option PointResult) :=
  (penetration_curve layers f coef F d_max d_step).map find_equilibrium_depth_on

/-- Loop of `find_all_equilibrium_depths`: collect `curve[i]` whenever the
safe/unsafe classification differs from the previous sample. -/
def transitionsGo : PointResult → List PointResult → List PointResult
  | _, [] => []
  | prev, pt :: rest =>
      if decide (safeI prev) = decide (safeI pt) then transitionsGo pt rest
      else pt :: transitionsGo pt rest

/-- Search part of `core/western/penetration.py::find_all_equilibrium_depths`:
every transition of the η₁ ≤ 1 classification between consecutive samples. -/
def find_all_equilibrium_depths_on (curve : List PointResult) : List PointResult :=
  match curve with
  | [] => []
  | [_] => []
  | pt :: rest => transitionsGo pt rest

/-- `core/western/penetration.py::has_punch_through_risk` on a built curve:
at least two transitions. -/
def has_punch_through_risk_on (curve : List PointResult) : Bool :=
  decide (2 ≤ (find_all_equilibrium_depths_on curve).length)

/-! ## `core/russian/bearing.py` -/

/-- `core/helpers.py::shape_factors`: `(ξγ, ξq, ξc)` with η floored at 1. -/
def shape_factors (eta : ℝ) : ℝ × ℝ × ℝ :=
  let e := max eta 1
  (1 - 0.25 / e, 1 + 1.5 / e, 1 + 0.3 / e)

/-- `core/helpers.py::reduced_dimensions`: `(b', l', η)`. -/
def reduced_dimensions (f : Foundation) : ℝ × ℝ × ℝ :=
  (f.b_prime, f.l_prime,
   if 0 < f.b_prime then max 1 (f.l_prime / f.b_prime) else 1)

/-- General-soil branch of `core/russian/bearing.py::bearing_capacity_Nu`:
`Nu = A'·(Nc·ξc·c + Nq·ξq·σzg + Nγ·ξγ·b'·γ')`.  The factor table
`core/russian/tables.py::bearing_capacity_factors` is not in the source tree,
so it is taken as a parameter `bcf : φ ↦ (Nγ, Nq, Nc)`. -/
def nuSoil (bcf : ℝ → ℝ × ℝ × ℝ) (layers : List SoilLayer) (f : Foundation)
    (d : ℝ) (layer : SoilLayer) : ℝ :=
  let rd := reduced_dimensions f
  let xi := shape_factors rd.2.2
  let sigma_zg := overburden_stress layers d
  let N := bcf layer.phi
  f.area_prime * (N.2.2 * xi.2.2 * layer.c + N.2.1 * xi.2.1 * sigma_zg +
    N.1 * xi.1 * rd.1 * layer.gamma_prime)

/-- `core/russian/bearing.py::bearing_capacity_Nu` (C.1.1): rock strength
`Rc` (MPa, converted to kPa) times the reduced area when set, the general
bearing-capacity formula otherwise. -/
def bearing_capacity_Nu (bcf : ℝ → ℝ × ℝ × ℝ) (layers : List SoilLayer)
    (f : Foundation) (d : ℝ) : ℝ :=
  match get_layer_at_depth layers d with
  | none => 0
  | some layer =>
      match layer.Rc with
      | some rc =>
          if 0 < rc then rc * 1000 * f.area_prime
          else nuSoil bcf layers f d layer
      | none => nuSoil bcf layers f d layer

/-! ## Claim C5: the ISO table 2.3-1 interpolation -/

/-- C5: `clay_factor_iso_table_23_1` returns exactly 6.0, 6.3, 6.6, 7.0, 7.7,
9.0 at the nodes D/B = 0, 0.1, 0.25, 0.5, 1.0, 2.5; it linearly interpolates
between adjacent nodes (D/B = 0.05 yields 6.15); every input below 0 returns
6.0 and above 2.5 returns 9.0. -/
theorem claim_C5_iso_clay_factor_table :
    (clay_factor_iso_table_23_1 0 = 6 ∧ clay_factor_iso_table_23_1 0.1 = 6.3 ∧
     clay_factor_iso_table_23_1 0.25 = 6.6 ∧ clay_factor_iso_table_23_1 0.5 = 7 ∧
     clay_factor_iso_table_23_1 1 = 7.7 ∧ clay_factor_iso_table_23_1 2.5 = 9) ∧
    clay_factor_iso_table_23_1 0.05 = 6.15 ∧
    (∀ x : ℝ, x < 0 → clay_factor_iso_table_23_1 x = 6) ∧
    (∀ x : ℝ, 2.5 < x → clay_factor_iso_table_23_1 x = 9) ∧
    (∀ x : ℝ, 0 ≤ x → x ≤ 0.1 →
      clay_factor_iso_table_23_1 x = 6 + (x - 0) / (0.1 - 0) * (6.3 - 6)) ∧
    (∀ x : ℝ, 0.1 ≤ x → x ≤ 0.25 →
      clay_factor_iso_table_23_1 x = 6.3 + (x - 0.1) / (0.25 - 0.1) * (6.6 - 6.3)) ∧
    (∀ x : ℝ, 0.25 ≤ x → x ≤ 0.5 →
      clay_factor_iso_table_23_1 x = 6.6 + (x - 0.25) / (0.5 - 0.25) * (7 - 6.6)) ∧
    (∀ x : ℝ, 0.5 ≤ x → x ≤ 1 →
      clay_factor_iso_table_23_1 x = 7 + (x - 0.5) / (1 - 0.5) * (7.7 - 7)) ∧
    (∀ x : ℝ, 1 ≤ x → x ≤ 2.5 →
      clay_factor_iso_table_23_1 x = 7.7 + (x - 1) / (2.5 - 1) * (9 - 7.7)) := by
  refine ⟨⟨?_, ?_, ?_, ?_, ?_, ?_⟩, ?_, ?_, ?_, ?_, ?_, ?_, ?_, ?_⟩
  · norm_num [clay_factor_iso_table_23_1]
  · norm_num [clay_factor_iso_table_23_1]
  · norm_num [clay_factor_iso_table_23_1]
  · norm_num [clay_factor_iso_table_23_1]
  · norm_num [clay_factor_iso_table_23_1]
  · norm_num [clay_factor_iso_table_23_1]
  · norm_num [clay_factor_iso_table_23_1]
  · intro x hx
    rw [clay_factor_iso_table_23_1, if_pos hx.le]
  · intro x hx
    rw [clay_factor_iso_table_23_1, if_neg (by linarith), if_pos hx.le]
  · intro x h0 h1
    rcases le_or_lt x 0 with hx | hx
    · have : x = 0 := le_antisymm hx h0
      subst this; norm_num [clay_factor_iso_table_23_1]
    · rw [clay_factor_iso_table_23_1, if_neg (by linarith), if_neg (by linarith),
        if_pos ⟨h0, h1⟩]
  · intro x h0 h1
    rcases le_or_lt x 0.1 with hx | hx
    · have : x = 0.1 := le_antisymm hx h0
      subst this; norm_num [clay_factor_iso_table_23_1]
    · rw [clay_factor_iso_table_23_1, if_neg (by linarith), if_neg (by linarith),
        if_neg (by rintro ⟨-, h⟩; linarith), if_pos ⟨h0, h1⟩]
  · intro x h0 h1
    rcases le_or_lt x 0.25 with hx | hx
    · have : x = 0.25 := le_antisymm hx h0
      subst this; norm_num [clay_factor_iso_table_23_1]
    · rw [clay_factor_iso_table_23_1, if_neg (by linarith), if_neg (by linarith),
        if_neg (by rintro ⟨-, h⟩; linarith), if_neg (by rintro ⟨-, h⟩; linarith),
        if_pos ⟨h0, h1⟩]
  · intro x h0 h1
    rcases le_or_lt x 0.5 with hx | hx
    · have : x = 0.5 := le_antisymm hx h0
      subst this; norm_num [clay_factor_iso_table_23_1]
    · rw [clay_factor_iso_table_23_1, if_neg (by linarith), if_neg (by linarith),
        if_neg (by rintro ⟨-, h⟩; linarith), if_neg (by rintro ⟨-, h⟩; linarith),
        if_neg (by rintro ⟨-, h⟩; linarith), if_pos ⟨h0, h1⟩]
  · intro x h0 h1
    rcases le_or_lt x 1 with hx | hx
    · have : x = 1 := le_antisymm hx h0
      subst this; norm_num [clay_factor_iso_table_23_1]
    · rcases le_or_lt 2.5 x with h25 | h25
      · have : x = 2.5 := le_antisymm h1 h25
        subst this; norm_num [clay_factor_iso_table_23_1]
      · rw [clay_factor_iso_table_23_1, if_neg (by linarith), if_neg (by linarith),
          if_neg (by rintro ⟨-, h⟩; linarith), if_neg (by rintro ⟨-, h⟩; linarith),
          if_neg (by rintro ⟨-, h⟩; linarith), if_neg (by rintro ⟨-, h⟩; linarith),
          if_pos ⟨h0, h1⟩]

/-- C5 witness: the clamped and interpolated branches at concrete inputs. -/
theorem claim_C5_iso_clay_factor_table_witness :
    clay_factor_iso_table_23_1 (-1) = 6 ∧ clay_factor_iso_table_23_1 10 = 9 ∧
      clay_factor_iso_table_23_1 0.3 = 6.6 + (0.3 - 0.25) / (0.5 - 0.25) * (7 - 6.6) :=
  ⟨claim_C5_iso_clay_factor_table.2.2.1 (-1) (by norm_num),
   claim_C5_iso_clay_factor_table.2.2.2.1 10 (by norm_num),
   claim_C5_iso_clay_factor_table.2.2.2.2.2.2.1 0.3 (by norm_num) (by norm_num)⟩

/-! ## Claim C4: equilibrium transitions and punch-through risk -/

/-- The transition loop collects exactly the second components of the
consecutive pairs whose safety classifications differ. -/
theorem transitionsGo_eq_filter (rest : List PointResult) :
    ∀ prev, transitionsGo prev rest =
      (((prev :: rest).zip rest).filter
        (fun q => decide (safeI q.1) != decide (safeI q.2))).map Prod.snd := by
  induction rest with
  | nil => intro prev; simp [transitionsGo]
  | cons pt rest ih =>
      intro prev
      by_cases h : decide (safeI prev) = decide (safeI pt) <;>
        simp [transitionsGo, h, ih pt]

/-- C4: `find_all_equilibrium_depths` returns exactly the sample points whose
η₁ ≤ 1 classification differs from that of the immediately preceding sample,
and `has_punch_through_risk` holds iff at least two such transitions exist. -/
theorem claim_C4_transitions_and_risk (curve : List PointResult) :
    find_all_equilibrium_depths_on curve =
      ((curve.zip curve.tail).filter
        (fun q => decide (safeI q.1) != decide (safeI q.2))).map Prod.snd ∧
    (has_punch_through_risk_on curve = true ↔
      2 ≤ (find_all_equilibrium_depths_on curve).length) := by
  refine ⟨?_, by simp [has_punch_through_risk_on]⟩
  match curve with
  | [] => simp [find_all_equilibrium_depths_on]
  | [a] => simp [find_all_equilibrium_depths_on]
  | a :: b :: rest =>
      simpa [find_all_equilibrium_depths_on] using
        transitionsGo_eq_filter (b :: rest) a

/-! ## Claim C2: the Western equilibrium-depth search -/

/-- Synthetic curve row as built by `tests/test_western_equilibrium_depth.py`
(Nu = R = p = 1, η₂ = 0.5). -/
def mkPt (d e : ℝ) : PointResult := ⟨d, 1, 1, 1, some e, some 0.5, "x"⟩

/-- The η₁ sequence `[1.2, 0.9, 1.1, 0.95, 0.9]` at depths 0.1..0.5. -/
def curveDip : List PointResult :=
  [mkPt 0.1 1.2, mkPt 0.2 0.9, mkPt 0.3 1.1, mkPt 0.4 0.95, mkPt 0.5 0.9]

/-- The monotonically safe η₁ sequence `[0.8, 0.7, 0.6]` at depths 0.1..0.3. -/
def curveMonotone : List PointResult :=
  [mkPt 0.1 0.8, mkPt 0.2 0.7, mkPt 0.3 0.6]

/-- An always-unsafe η₁ sequence at depths 0.1..0.5. -/
def curveUnsafe : List PointResult :=
  [mkPt 0.1 1.01, mkPt 0.2 1.01, mkPt 0.3 1.01, mkPt 0.4 1.01, mkPt 0.5 1.01]

theorem safeI_mkPt (d e : ℝ) : safeI (mkPt d e) ↔ e ≤ 1 := Iff.rfl

theorem unstablePt_mkPt (d e : ℝ) : unstablePt (mkPt d e) ↔ 1 < e := Iff.rfl

/-- C2 (code bug): on the η₁ sequence `[1.2, 0.9, 1.1, 0.95, 0.9]` the search
returns the sample at depth 0.5 — the deepest safe sample — not the claimed
shallowest stable depth 0.4 (the repository's own test asserts 0.4); on
`[0.8, 0.7, 0.6]` it returns depth 0.3, not the claimed first sample 0.1.
Only the always-unsafe case behaves as claimed (`none`). -/
theorem claim_C2_equilibrium_search_returns_deepest :
    (find_equilibrium_depth_on curveDip).map PointResult.d = some 0.5 ∧
    (find_equilibrium_depth_on curveMonotone).map PointResult.d = some 0.3 ∧
    find_equilibrium_depth_on curveUnsafe = none := by
  have hu12 : ¬ safeI (mkPt 0.1 1.2) := by rw [safeI_mkPt]; norm_num
  have hs09a : safeI (mkPt 0.2 0.9) := by rw [safeI_mkPt]; norm_num
  have hu11 : ¬ safeI (mkPt 0.3 1.1) := by rw [safeI_mkPt]; norm_num
  have hs095 : safeI (mkPt 0.4 0.95) := by rw [safeI_mkPt]; norm_num
  have hs09b : safeI (mkPt 0.5 0.9) := by rw [safeI_mkPt]; norm_num
  have hs08 : safeI (mkPt 0.1 0.8) := by rw [safeI_mkPt]; norm_num
  have hs07 : safeI (mkPt 0.2 0.7) := by rw [safeI_mkPt]; norm_num
  have hs06 : safeI (mkPt 0.3 0.6) := by rw [safeI_mkPt]; norm_num
  have hu101 : ∀ d : ℝ, ¬ safeI (mkPt d 1.01) := by
    intro d; rw [safeI_mkPt]; norm_num
  refine ⟨?_, ?_, ?_⟩
  · have hsafe : safeIndices curveDip = [1, 3, 4] := by
      simp [safeIndices, curveDip, List.range_succ, List.filter_append,
        List.filter_cons, hu12, hs09a, hu11, hs095, hs09b]
    simp only [find_equilibrium_depth_on, hsafe]
    norm_num [eqScan, curveDip, mkPt]
    exact ⟨_, ⟨by simp, by simp, rfl⟩, by norm_num⟩
  · have hsafe : safeIndices curveMonotone = [0, 1, 2] := by
      simp [safeIndices, curveMonotone, List.range_succ, List.filter_append,
        List.filter_cons, hs08, hs07, hs06]
    simp only [find_equilibrium_depth_on, hsafe]
    norm_num [eqScan, curveMonotone, mkPt, unstablePt]
    exact ⟨_, ⟨by simp, by simp, rfl⟩, by norm_num⟩
  · have hsafe : safeIndices curveUnsafe = [] := by
      simp [safeIndices, curveUnsafe, List.range_succ, List.filter_append,
        List.filter_cons, hu101]
    simp only [find_equilibrium_depth_on, hsafe]
    norm_num [curveUnsafe, eqScan]

/-! ## Claim C3: governing minimum for sand-over-clay punch-through -/

/-- Claim-side reading of "the minimum of all strictly positive results":
`r` is a positive member of `cands` below every positive member when one
exists, and 0 when no member is positive. -/
def IsGoverningMinimum (r : ℝ) (cands : List ℝ) : Prop :=
  ((∃ v ∈ cands, 0 < v) → r ∈ cands ∧ 0 < r ∧ ∀ v ∈ cands, 0 < v → r ≤ v) ∧
  ((∀ v ∈ cands, v ≤ 0) → r = 0)

theorem foldl_min_mem (vs : List ℝ) : ∀ v : ℝ, vs.foldl min v ∈ v :: vs := by
  induction vs with
  | nil => intro v; simp
  | cons w vs ih =>
      intro v
      have h := ih (min v w)
      rw [List.foldl_cons]
      rcases List.mem_cons.mp h with h | h
      · rcases min_choice v w with hm | hm
        · rw [h, hm]; exact List.mem_cons_self _ _
        · rw [h, hm]; exact List.mem_cons.mpr (Or.inr (List.mem_cons_self _ _))
      · exact List.mem_cons.mpr (Or.inr (List.mem_cons.mpr (Or.inr h)))

theorem foldl_min_le (vs : List ℝ) :
    ∀ v x : ℝ, x ∈ v :: vs → vs.foldl min v ≤ x := by
  induction vs with
  | nil =>
      intro v x hx
      rw [List.mem_singleton] at hx
      subst hx; simp
  | cons w vs ih =>
      intro v x hx
      rw [List.foldl_cons]
      rcases List.mem_cons.mp hx with hx | hx
      · refine le_trans (ih (min v w) _ (List.mem_cons_self _ _)) ?_
        rw [hx]; exact min_le_left _ _
      · rcases List.mem_cons.mp hx with hx | hx
        · refine le_trans (ih (min v w) _ (List.mem_cons_self _ _)) ?_
          rw [hx]; exact min_le_right _ _
        · exact ih (min v w) x (List.mem_cons.mpr (Or.inr hx))

/-- `_min_positive` satisfies the governing-minimum characterization. -/
theorem minPositive_is_governing (cands : List ℝ) :
    IsGoverningMinimum (minPositive cands) cands := by
  constructor
  · rintro ⟨v, hv, hvpos⟩
    have hvf : v ∈ cands.filter (fun v => decide (0 < v)) :=
      List.mem_filter.mpr ⟨hv, by simpa using hvpos⟩
    rw [minPositive]
    match hf : cands.filter (fun v => decide (0 < v)) with
    | [] => rw [hf] at hvf; simp at hvf
    | w :: ws =>
        have hmem : ws.foldl min w ∈ w :: ws := foldl_min_mem ws w
        have hmemf : ws.foldl min w ∈ cands.filter (fun v => decide (0 < v)) := by
          rw [hf]; exact hmem
        have hm := List.mem_filter.mp hmemf
        refine ⟨hm.1, by simpa using hm.2, ?_⟩
        intro x hx hxpos
        have hxf : x ∈ cands.filter (fun v => decide (0 < v)) :=
          List.mem_filter.mpr ⟨hx, by simpa using hxpos⟩
        rw [hf] at hxf
        exact foldl_min_le ws w x hxf
  · intro hall
    rw [minPositive]
    match hf : cands.filter (fun v => decide (0 < v)) with
    | [] => rfl
    | w :: ws =>
        have : w ∈ cands.filter (fun v => decide (0 < v)) := by
          rw [hf]; exact List.mem_cons_self _ _
        have hm := List.mem_filter.mp this
        have : (0 : ℝ) < w := by simpa using hm.2
        exact absurd (hall w hm.1) (by linarith)

/-- The three candidate capacities combined by
`bearing_capacity_punch_through_sand_clay`: the C.2.17/C.2.18 back-flow method
(back-flow height `D` when enabled, 0 otherwise), the minimum of the load
spread method at n = 3 and n = 5, and the Ks-shear method. -/
def punchThroughCandidates (layers : List SoilLayer) (f : Foundation)
    (d H_sand phi_sand gamma_sand cu_clay : ℝ) (use_backflow : Bool) : List ℝ :=
  [punchThroughBackflowMethod layers f d H_sand phi_sand gamma_sand cu_clay
     (if use_backflow then max 0 d else 0),
   min (punchThroughLoadSpread layers f d H_sand gamma_sand cu_clay 3)
     (punchThroughLoadSpread layers f d H_sand gamma_sand cu_clay 5),
   punchThroughKsShear layers f d H_sand phi_sand gamma_sand cu_clay]

/-- C3: for `H_sand > 0` and `cu_clay > 0` the sand-over-clay punch-through
capacity is the minimum of the strictly positive candidates (back-flow method,
min of load spread at n = 3 and n = 5, Ks shear), 0 when no candidate is
positive; and it is 0 outright when `H_sand ≤ 0` or `cu_clay ≤ 0`. -/
theorem claim_C3_punch_through_sand_clay_minimum (layers : List SoilLayer)
    (f : Foundation) (d H_sand phi_sand gamma_sand cu_clay : ℝ) (ub : Bool) :
    (0 < H_sand → 0 < cu_clay →
      IsGoverningMinimum
        (bearing_capacity_punch_through_sand_clay layers f d H_sand phi_sand
          gamma_sand cu_clay ub)
        (punchThroughCandidates layers f d H_sand phi_sand gamma_sand cu_clay ub)) ∧
    (H_sand ≤ 0 ∨ cu_clay ≤ 0 →
      bearing_capacity_punch_through_sand_clay layers f d H_sand phi_sand
        gamma_sand cu_clay ub = 0) := by
  constructor
  · intro h1 h2
    have hne : ¬ (H_sand ≤ 0 ∨ cu_clay ≤ 0) := by push_neg; exact ⟨h1, h2⟩
    have heq : bearing_capacity_punch_through_sand_clay layers f d H_sand phi_sand
        gamma_sand cu_clay ub =
        minPositive (punchThroughCandidates layers f d H_sand phi_sand gamma_sand
          cu_clay ub) := by
      rw [bearing_capacity_punch_through_sand_clay, if_neg hne]
      rfl
    rw [heq]
    exact minPositive_is_governing _
  · intro h
    rw [bearing_capacity_punch_through_sand_clay, if_pos h]

/-- C3 witness: a strict two-layer sand-over-clay instance (unit foundation)
and a degenerate one with `H_sand = 0`. -/
theorem claim_C3_punch_through_sand_clay_minimum_witness :
    IsGoverningMinimum
      (bearing_capacity_punch_through_sand_clay [] ⟨1, 0, 0, none, none, none, none⟩
        0 1 30 10 50 false)
      (punchThroughCandidates [] ⟨1, 0, 0, none, none, none, none⟩ 0 1 30 10 50 false) ∧
    bearing_capacity_punch_through_sand_clay [] ⟨1, 0, 0, none, none, none, none⟩
      0 0 30 10 50 false = 0 :=
  ⟨(claim_C3_punch_through_sand_clay_minimum [] ⟨1, 0, 0, none, none, none, none⟩
      0 1 30 10 50 false).1 (by norm_num) (by norm_num),
   (claim_C3_punch_through_sand_clay_minimum [] ⟨1, 0, 0, none, none, none, none⟩
      0 0 30 10 50 false).2 (Or.inl le_rfl)⟩

/-! ## Concrete fixtures shared by the witnesses -/

/-- A single thick clay layer (cu = 50 kPa, γ' = 10 kN/m³). -/
def clayLayer : SoilLayer :=
  ⟨"clay", 10, 10, 0, 0, some 50, none, some "undrained", none⟩

/-- A rock layer with `Rc = 5` MPa. -/
def rockLayer : SoilLayer := ⟨"rock", 5, 20, 0, 0, none, some 5, none, none⟩

/-- Foundation of unit area and no eccentricity (`b' = l' = A' = 1`). -/
def unitFoundation : Foundation := ⟨1, 0, 0, none, none, none, none⟩

/-- Foundation of area π and no eccentricity (`A' = π`, `B_eff = 2`, as in
`tests/test_western_shape_factors.py`). -/
def piFoundation : Foundation := ⟨Real.pi, 0, 0, none, none, none, none⟩

/-- Default coefficient set. -/
def defaultCoefficients : Coefficients := ⟨1.25, 1, 1, 1, 1, false⟩

theorem unitFoundation_b_prime : unitFoundation.b_prime = 1 := by
  rw [Foundation.b_prime, Foundation.b]
  norm_num [unitFoundation, Real.sqrt_one]

theorem unitFoundation_l_prime : unitFoundation.l_prime = 1 := by
  rw [Foundation.l_prime, Foundation.l]
  norm_num [unitFoundation, Real.sqrt_one]

theorem unitFoundation_area_prime : unitFoundation.area_prime = 1 := by
  rw [Foundation.area_prime, unitFoundation_b_prime, unitFoundation_l_prime]
  norm_num

theorem sqrt_pi_large : (1 : ℝ) ≤ Real.sqrt Real.pi := by
  rw [show (1 : ℝ) = Real.sqrt 1 by rw [Real.sqrt_one]]
  exact Real.sqrt_le_sqrt (by linarith [Real.pi_gt_three])

theorem piFoundation_b_prime : piFoundation.b_prime = Real.sqrt Real.pi := by
  rw [Foundation.b_prime, Foundation.b]
  have : (piFoundation.area) = Real.pi := rfl
  rw [this]
  have h1 : (0.01 : ℝ) ≤ Real.sqrt Real.pi - 2 * piFoundation.e_x := by
    have : piFoundation.e_x = 0 := rfl
    rw [this]
    linarith [sqrt_pi_large]
  rw [max_eq_right (by simpa using h1)]
  norm_num [piFoundation]

theorem piFoundation_l_prime : piFoundation.l_prime = Real.sqrt Real.pi := by
  rw [Foundation.l_prime, Foundation.l]
  have : (piFoundation.area) = Real.pi := rfl
  rw [this]
  have h1 : (0.01 : ℝ) ≤ Real.sqrt Real.pi - 2 * piFoundation.e_y := by
    have : piFoundation.e_y = 0 := rfl
    rw [this]
    linarith [sqrt_pi_large]
  rw [max_eq_right (by simpa using h1)]
  norm_num [piFoundation]

theorem piFoundation_area_prime : piFoundation.area_prime = Real.pi := by
  rw [Foundation.area_prime, piFoundation_b_prime, piFoundation_l_prime]
  exact Real.mul_self_sqrt Real.pi_pos.le

theorem piFoundation_B_eff : piFoundation.B_eff = 2 := by
  rw [Foundation.B_eff, piFoundation_area_prime]
  rw [mul_div_assoc, div_self Real.pi_ne_zero, mul_one]
  rw [show (4 : ℝ) = 2 ^ 2 by norm_num]
  exact Real.sqrt_sq (by norm_num)

/-! ## Claim C8: rock strength governs the Russian `Nu` -/

/-- C8: whenever the layer found at depth `d` carries a (valid, hence
positive) rock strength `Rc`, `bearing_capacity_Nu` returns `Rc` in kPa times
the reduced area, for every bearing-factor table `bcf` — i.e. without
consulting the general soil formula. -/
theorem claim_C8_rock_bypasses_soil_formula (bcf : ℝ → ℝ × ℝ × ℝ)
    (layers : List SoilLayer) (f : Foundation) (d : ℝ) (L : SoilLayer) (rc : ℝ)
    (hL : get_layer_at_depth layers d = some L) (hRc : L.Rc = some rc)
    (hpos : 0 < rc) :
    bearing_capacity_Nu bcf layers f d = rc * 1000 * f.area_prime := by
  rw [bearing_capacity_Nu, hL]
  simp only [hRc]
  rw [if_pos hpos]

/-- C8 witness: a rock layer at depth 1 under a unit foundation. -/
theorem claim_C8_rock_bypasses_soil_formula_witness :
    bearing_capacity_Nu (fun _ => (0, 0, 0)) [rockLayer] unitFoundation 1 =
      5 * 1000 * unitFoundation.area_prime :=
  claim_C8_rock_bypasses_soil_formula (fun _ => (0, 0, 0)) [rockLayer]
    unitFoundation 1 rockLayer 5
    (by norm_num [get_layer_at_depth, getLayerLoop, rockLayer]) rfl (by norm_num)

/-! ## Claim C10: negative depths -/

theorem getLayerLoop_none_of_neg (depth : ℝ) (hd : depth < 0) :
    ∀ layers : List SoilLayer, (∀ L ∈ layers, 0 < L.thickness) →
      ∀ z : ℝ, 0 ≤ z → getLayerLoop depth layers z = none := by
  intro layers
  induction layers with
  | nil => intro _ z _; rfl
  | cons L rest ih =>
      intro hv z hz
      rw [getLayerLoop, if_neg (by rintro ⟨h1, -⟩; linarith)]
      exact ih (fun M hM => hv M (List.mem_cons.mpr (Or.inr hM))) (z + L.thickness)
        (by linarith [hv L (List.mem_cons_self _ _)])

theorem totalThickness_nonneg (layers : List SoilLayer)
    (hv : ∀ L ∈ layers, 0 < L.thickness) : 0 ≤ totalThickness layers := by
  rw [totalThickness]
  apply List.sum_nonneg
  intro x hx
  rcases List.mem_map.mp hx with ⟨L, hL, rfl⟩
  exact (hv L hL).le

/-- C10 (amended): at a strictly negative depth `get_layer_at_depth` returns
`none` on every valid profile (as on the empty one) and `bearing_capacity_Nu`
returns 0; but the Western `calculate_point` does not return the η = 999
sentinel row — constructing it fails pydantic validation (`d ≥ 0`), so the
call raises (modelled as `none`). -/
theorem claim_C10_negative_depth (bcf : ℝ → ℝ × ℝ × ℝ) (layers : List SoilLayer)
    (f : Foundation) (coef : Coefficients) (F d : ℝ) (_hne : layers ≠ [])
    (hv : ∀ L ∈ layers, 0 < L.thickness) (hd : d < 0) :
    get_layer_at_depth layers d = none ∧
    bearing_capacity_Nu bcf layers f d = 0 ∧
    calculate_point layers f coef F d = none := by
  have hloop : getLayerLoop d layers 0 = none :=
    getLayerLoop_none_of_neg d hd layers hv 0 le_rfl
  have hget : get_layer_at_depth layers d = none := by
    rw [get_layer_at_depth, hloop]
    exact if_neg (by rintro ⟨-, h⟩; linarith [totalThickness_nonneg layers hv])
  refine ⟨hget, ?_, ?_⟩
  · rw [bearing_capacity_Nu, hget]
  · rw [calculate_point, hget]
    exact if_neg (by rintro ⟨h, -⟩; linarith)

/-- C10 counterexample: at depth −1 on a one-layer clay profile the Western
`calculate_point` fails (returns `none`); in particular it does not return a
sentinel row with η₁ = η₂ = 999 as the claim states. -/
theorem claim_C10_negative_depth_counterexample :
    calculate_point [clayLayer] unitFoundation defaultCoefficients 100 (-1) = none ∧
    ¬ ∃ pt : PointResult,
        calculate_point [clayLayer] unitFoundation defaultCoefficients 100 (-1) =
          some pt ∧ pt.eta1 = some 999 ∧ pt.eta2 = some 999 := by
  have h : calculate_point [clayLayer] unitFoundation defaultCoefficients 100 (-1) =
      none := by
    norm_num [calculate_point, get_layer_at_depth, getLayerLoop, clayLayer,
      totalThickness, mkPointResult]
  exact ⟨h, by rw [h]; rintro ⟨pt, hpt, -⟩; exact Option.noConfusion hpt⟩

/-- C10 witness: the amended statement at the one-layer clay profile, depth −1. -/
theorem claim_C10_negative_depth_witness :
    get_layer_at_depth [clayLayer] (-1) = none ∧
    bearing_capacity_Nu (fun _ => (0, 0, 0)) [clayLayer] unitFoundation (-1) = 0 ∧
    calculate_point [clayLayer] unitFoundation defaultCoefficients 100 (-1) = none :=
  claim_C10_negative_depth (fun _ => (0, 0, 0)) [clayLayer] unitFoundation
    defaultCoefficients 100 (-1) (by simp)
    (by intro L hL; rw [List.mem_singleton] at hL; rw [hL]; norm_num [clayLayer])
    (by norm_num)

/-! ## Claim C9: the two Western safety ratios coincide -/

theorem b_prime_pos (f : Foundation) : 0 < f.b_prime :=
  lt_of_lt_of_le (by norm_num) (le_max_left _ _)

theorem l_prime_pos (f : Foundation) : 0 < f.l_prime :=
  lt_of_lt_of_le (by norm_num) (le_max_left _ _)

/-- The reduced area is always positive (both reduced dimensions are floored
at 0.01). -/
theorem area_prime_pos (f : Foundation) : 0 < f.area_prime :=
  mul_pos (b_prime_pos f) (l_prime_pos f)

/-- C9: in Western `calculate_point` the two safety ratios always coincide:
the η₁ and η₂ fields of any produced point are equal, and when a layer is
found at depth `d` the point is built with
`η₂ = η₁ = F/Vl` when `Vl > 0` and ∞ (`none`) otherwise, because `R = Vl/A'`
and `p = F/A'` over the same positive reduced area `A'`. -/
theorem claim_C9_eta1_eq_eta2 (layers : List SoilLayer) (f : Foundation)
    (coef : Coefficients) (F d : ℝ) :
    ((calculate_point layers f coef F d).map PointResult.eta1 =
      (calculate_point layers f coef F d).map PointResult.eta2) ∧
    (∀ L, get_layer_at_depth layers d = some L →
      calculate_point layers f coef F d =
        mkPointResult d (bearing_capacity_Vl layers f d F coef.use_backfill)
          (bearing_capacity_Vl layers f d F coef.use_backfill / f.area_prime)
          (F / f.area_prime)
          (if 0 < bearing_capacity_Vl layers f d F coef.use_backfill then
            some (F / bearing_capacity_Vl layers f d F coef.use_backfill)
           else none)
          (if 0 < bearing_capacity_Vl layers f d F coef.use_backfill then
            some (F / bearing_capacity_Vl layers f d F coef.use_backfill)
           else none)
          L.name) := by
  have hA : 0 < f.area_prime := area_prime_pos f
  match hL : get_layer_at_depth layers d with
  | none =>
      constructor
      · simp only [calculate_point, hL, mkPointResult]
        split <;> simp
      · intro L hL'
        exact Option.noConfusion hL'
  | some L =>
      have hcalc : calculate_point layers f coef F d =
          mkPointResult d (bearing_capacity_Vl layers f d F coef.use_backfill)
            (bearing_capacity_Vl layers f d F coef.use_backfill / f.area_prime)
            (F / f.area_prime)
            (if 0 < bearing_capacity_Vl layers f d F coef.use_backfill then
              some (F / bearing_capacity_Vl layers f d F coef.use_backfill)
             else none)
            (if 0 < bearing_capacity_Vl layers f d F coef.use_backfill then
              some (F / bearing_capacity_Vl layers f d F coef.use_backfill)
             else none)
            L.name := by
        simp only [calculate_point, hL, if_pos hA]
        congr 1
        · -- η₂ computed from p/R equals the η₁ expression
          by_cases hV : 0 < bearing_capacity_Vl layers f d F coef.use_backfill
          · rw [if_pos (div_pos hV hA), if_pos hV]
            congr 1
            rw [div_div_div_cancel_right₀]
            exact hA.ne.symm
          · rw [if_neg hV, if_neg ?_]
            rw [not_lt] at hV ⊢
            exact div_nonpos_of_nonpos_of_nonneg hV hA.le
      refine ⟨?_, fun L' hL' => ?_⟩
      · rw [hcalc, mkPointResult]
        split <;> simp
      · obtain rfl : L = L' := Option.some_inj.mp hL'
        exact hcalc

/-- C9 witness: the one-layer clay profile with the unit foundation at depth 1
(a layer is found there). -/
theorem claim_C9_eta1_eq_eta2_witness :
    ((calculate_point [clayLayer] unitFoundation defaultCoefficients 37 1).map
        PointResult.eta1 =
      (calculate_point [clayLayer] unitFoundation defaultCoefficients 37 1).map
        PointResult.eta2) ∧
    calculate_point [clayLayer] unitFoundation defaultCoefficients 37 1 =
      mkPointResult 1
        (bearing_capacity_Vl [clayLayer] unitFoundation 1 37 false)
        (bearing_capacity_Vl [clayLayer] unitFoundation 1 37 false /
          unitFoundation.area_prime)
        (37 / unitFoundation.area_prime)
        (if 0 < bearing_capacity_Vl [clayLayer] unitFoundation 1 37 false then
          some (37 / bearing_capacity_Vl [clayLayer] unitFoundation 1 37 false)
         else none)
        (if 0 < bearing_capacity_Vl [clayLayer] unitFoundation 1 37 false then
          some (37 / bearing_capacity_Vl [clayLayer] unitFoundation 1 37 false)
         else none)
        clayLayer.name :=
  ⟨(claim_C9_eta1_eq_eta2 [clayLayer] unitFoundation defaultCoefficients 37 1).1,
   (claim_C9_eta1_eq_eta2 [clayLayer] unitFoundation defaultCoefficients 37 1).2
     clayLayer (by norm_num [get_layer_at_depth, getLayerLoop, clayLayer])⟩

/-! ## Claim C6: the cu-variability averaging-zone rule -/

/-- Claim-side clay capacity with an explicitly given averaging-zone
thickness: cu averaged over the zone (with the point fallback), ISO table
multiplier, overburden surcharge, reduced area. -/
def clayCapacityWithZone (layers : List SoilLayer) (f : Foundation)
    (d zone : ℝ) : ℝ :=
  match get_layer_at_depth layers d with
  | none => 0
  | some layer =>
      let cu0 := average_cu_below layers d zone
      let cu1 := if cu0 ≤ 0 then cuVal layer else cu0
      if cu1 ≤ 0 then 0
      else
        (cu1 * clay_factor_iso_table_23_1 (if 0 < f.B_eff then d / f.B_eff else 0) +
          overburden_stress layers d) * f.area_prime

/-- Thin uniform test layer with a given `cu`
(`tests/test_western_cu_variability.py`). -/
def varLayer (cu : ℝ) : SoilLayer :=
  ⟨"v", 1, 10, 0, 0, some cu, none, some "undrained", none⟩

/-- C6: `bearing_capacity_clay` averages cu over the full effective width `B`
exactly when the cu-variability ratio over `B` exceeds 0.5 and over `B/2`
otherwise; for the two-layer profiles with cu = {10, 30} (resp. {10, 14}) and
window 2 the ratio exceeds 0.5 (resp. does not). -/
theorem claim_C6_cu_variability_rule (layers : List SoilLayer) (f : Foundation)
    (d : ℝ) :
    (bearing_capacity_clay layers f d =
      clayCapacityWithZone layers f d
        (if 0.5 < cu_variability layers d f.B_eff then f.B_eff else f.B_eff / 2)) ∧
    0.5 < cu_variability [varLayer 10, varLayer 30] 0 2 ∧
    cu_variability [varLayer 10, varLayer 14] 0 2 ≤ 0.5 := by
  refine ⟨?_, ?_, ?_⟩
  · have hhalf : (0.5 : ℝ) * f.B_eff = f.B_eff / 2 := by ring
    by_cases hv : 0.5 < cu_variability layers d f.B_eff
    · simp only [bearing_capacity_clay, clayCapacityWithZone, if_pos hv]
    · simp only [bearing_capacity_clay, clayCapacityWithZone, if_neg hv, hhalf]
  · norm_num [cu_variability, windowCuVals, average_cu_below, windowAccum,
      windowExtra, totalThickness, cuVal, varLayer, List.cons_ne_nil, cuOrC]
  · norm_num [cu_variability, windowCuVals, average_cu_below, windowAccum,
      windowExtra, totalThickness, cuVal, varLayer, List.cons_ne_nil, cuOrC]

/-! ## Claim C7: positive back-flow height strictly reduces the capacity -/

theorem max0_sub_lt (C w : ℝ) (hw : 0 < w) (hpos : 0 < max 0 C) :
    max 0 (C - w) < max 0 C := by
  have hC : 0 < C := by
    by_contra h
    rw [not_lt] at h
    rw [max_eq_left h] at hpos
    exact lt_irrefl 0 hpos
  rw [max_eq_right hC.le]
  rcases le_or_lt (C - w) 0 with h | h
  · rw [max_eq_left h]; exact hC
  · rw [max_eq_right h.le]; linarith

/-- C7 (amended): whenever the zero-back-flow capacity is strictly positive,
computing with a strictly positive back-flow height gives a strictly smaller
capacity, all other arguments equal.  (As originally stated — for every input —
the claim fails on guard-degenerate inputs where both sides are 0.) -/
theorem claim_C7_backflow_strictly_reduces (layers : List SoilLayer)
    (f : Foundation) (d H_sand phi_sand gamma_sand cu_clay I : ℝ) (hI : 0 < I)
    (hpos : 0 < punchThroughBackflowMethod layers f d H_sand phi_sand gamma_sand
      cu_clay 0) :
    punchThroughBackflowMethod layers f d H_sand phi_sand gamma_sand cu_clay I <
      punchThroughBackflowMethod layers f d H_sand phi_sand gamma_sand cu_clay 0 := by
  by_cases hg : f.B_eff ≤ 0 ∨ f.area_prime ≤ 0 ∨ H_sand ≤ 0 ∨ gamma_sand ≤ 0 ∨
      phi_sand ≤ 0 ∨ cu_clay ≤ 0
  · exfalso
    rw [punchThroughBackflowMethod, if_pos hg] at hpos
    exact lt_irrefl 0 hpos
  · have hg' := hg
    push_neg at hg'
    obtain ⟨hB, hA, hH, hγ, hφ, hcu⟩ := hg'
    simp only [punchThroughBackflowMethod, if_neg hg] at hpos ⊢
    rw [max_self] at hpos ⊢
    rw [max_eq_right hI.le]
    simp only [mul_zero, zero_mul, sub_zero] at hpos ⊢
    rw [show ∀ a b c t : ℝ, a - b - c + t = (a - b + t) - c from
      fun a b c t => by ring]
    exact max0_sub_lt _ _ (mul_pos (mul_pos hA hI) hγ) hpos

/-- C7 counterexample to the claim as stated: with `phi_sand = 0` the guard
zeroes both computations, so the strict inequality fails. -/
theorem claim_C7_backflow_counterexample :
    ¬ (punchThroughBackflowMethod [clayLayer] unitFoundation 0 1 0 10 50 1 <
        punchThroughBackflowMethod [clayLayer] unitFoundation 0 1 0 10 50 0) := by
  have hg : (unitFoundation.B_eff ≤ 0 ∨ unitFoundation.area_prime ≤ 0 ∨
      (1 : ℝ) ≤ 0 ∨ (10 : ℝ) ≤ 0 ∨ (0 : ℝ) ≤ 0 ∨ (50 : ℝ) ≤ 0) :=
    Or.inr (Or.inr (Or.inr (Or.inr (Or.inl le_rfl))))
  have h1 : punchThroughBackflowMethod [clayLayer] unitFoundation 0 1 0 10 50 1 = 0 := by
    rw [punchThroughBackflowMethod, if_pos hg]
  have h0 : punchThroughBackflowMethod [clayLayer] unitFoundation 0 1 0 10 50 0 = 0 := by
    rw [punchThroughBackflowMethod, if_pos hg]
  rw [h1, h0]
  exact lt_irrefl 0

theorem average_cu_clayLayer_eval : average_cu_below [clayLayer] 1 1 = 50 := by
  norm_num [average_cu_below, windowAccum, windowExtra, totalThickness, cuVal,
    clayLayer, List.cons_ne_nil]

theorem overburden_clayLayer_0 : overburden_stress [clayLayer] 0 = 0 := by
  norm_num [overburden_stress]

theorem overburden_clayLayer_1 : overburden_stress [clayLayer] 1 = 10 := by
  norm_num [overburden_stress, overburdenLoop, lastGamma, clayLayer,
    List.cons_ne_nil]

/-- Evaluation of the back-flow method with zero back-flow height on the
one-layer clay profile under the π-area foundation (B = 2, A' = π). -/
theorem backflow_eval_pi :
    punchThroughBackflowMethod [clayLayer] piFoundation 0 1 30 10 50 0 =
      375 * Real.pi := by
  have hg : ¬ (piFoundation.B_eff ≤ 0 ∨ piFoundation.area_prime ≤ 0 ∨
      (1 : ℝ) ≤ 0 ∨ (10 : ℝ) ≤ 0 ∨ (30 : ℝ) ≤ 0 ∨ (50 : ℝ) ≤ 0) := by
    rw [piFoundation_B_eff, piFoundation_area_prime]
    push_neg
    exact ⟨by norm_num, Real.pi_pos, by norm_num, by norm_num, by norm_num,
      by norm_num⟩
  rw [punchThroughBackflowMethod, if_neg hg]
  simp only [piFoundation_B_eff, piFoundation_area_prime]
  norm_num [average_cu_clayLayer_eval, overburden_clayLayer_0,
    overburden_clayLayer_1, clay_factor_iso_table_23_1]
  rw [show (310 : ℝ) * Real.pi - Real.pi * 10 + 75 * Real.pi = 375 * Real.pi from
    by ring]
  exact max_eq_right (by positivity)

/-- C7 witness: the strict reduction at the concrete sand-over-clay instance
(back-flow height 1 versus 0), whose zero-back-flow capacity is `375·π > 0`. -/
theorem claim_C7_backflow_strictly_reduces_witness :
    (0 : ℝ) < 1 ∧
    punchThroughBackflowMethod [clayLayer] piFoundation 0 1 30 10 50 1 <
      punchThroughBackflowMethod [clayLayer] piFoundation 0 1 30 10 50 0 :=
  ⟨by norm_num,
   claim_C7_backflow_strictly_reduces [clayLayer] piFoundation 0 1 30 10 50 1
     (by norm_num)
     (by rw [backflow_eval_pi]; positivity)⟩

/-! ## Claim C1: cache vs uncached profile queries — index machinery -/

/-- Depth of the top of layer `i`: partial sum of the first `i` thicknesses. -/
def bnd (ls : List SoilLayer) (i : ℕ) : ℝ := totalThickness (ls.take i)

theorem bnd_zero (ls : List SoilLayer) : bnd ls 0 = 0 := by
  simp [bnd, totalThickness]

theorem bnd_length (ls : List SoilLayer) : bnd ls ls.length = totalThickness ls := by
  simp [bnd]

theorem bnd_cons_succ (L : SoilLayer) (ls : List SoilLayer) (i : ℕ) :
    bnd (L :: ls) (i + 1) = L.thickness + bnd ls i := by
  simp [bnd, totalThickness]

theorem bnd_succ (ls : List SoilLayer) (i : ℕ) (hi : i < ls.length) :
    bnd ls (i + 1) = bnd ls i + (ls.getD i default).thickness := by
  induction ls generalizing i with
  | nil => simp at hi
  | cons L rest ih =>
      cases i with
      | zero => simp [bnd_cons_succ, bnd_zero, totalThickness]
      | succ j =>
          rw [bnd_cons_succ, bnd_cons_succ, ih j (by simpa using hi),
            List.getD_cons_succ]
          ring

theorem bnd_nonneg (ls : List SoilLayer) (hv : ∀ L ∈ ls, 0 < L.thickness)
    (i : ℕ) : 0 ≤ bnd ls i := by
  rw [bnd]
  apply totalThickness_nonneg
  exact fun L hL => hv L (List.mem_of_mem_take hL)

theorem getD_mem (ls : List SoilLayer) :
    ∀ i : ℕ, i < ls.length → ls.getD i default ∈ ls := by
  induction ls with
  | nil => intro i hi; simp at hi
  | cons L rest ih =>
      intro i hi
      cases i with
      | zero => simp
      | succ j =>
          rw [List.getD_cons_succ]
          exact List.mem_cons.mpr (Or.inr (ih j (by simpa using hi)))

theorem bnd_mono (ls : List SoilLayer) (hv : ∀ L ∈ ls, 0 < L.thickness) :
    ∀ j : ℕ, j ≤ ls.length → ∀ i : ℕ, i ≤ j → bnd ls i ≤ bnd ls j := by
  intro j
  induction j with
  | zero =>
      intro _ i hi
      rw [Nat.le_zero.mp hi]
  | succ k ih =>
      intro hk i hi
      rcases Nat.le_succ_iff.mp hi with h | h
      · have hklen : k < ls.length := Nat.lt_of_succ_le hk
        have h1 := ih hklen.le i h
        rw [bnd_succ ls k hklen]
        have ht := hv _ (getD_mem ls k hklen)
        linarith
      · rw [h]

theorem bnd_strict_mono (ls : List SoilLayer) (hv : ∀ L ∈ ls, 0 < L.thickness)
    (i j : ℕ) (hij : i < j) (hj : j ≤ ls.length) : bnd ls i < bnd ls j := by
  have hi : i < ls.length := lt_of_lt_of_le hij hj
  have h1 : bnd ls i < bnd ls (i + 1) := by
    rw [bnd_succ ls i hi]
    have := hv _ (getD_mem ls i hi)
    linarith
  exact lt_of_lt_of_le h1 (bnd_mono ls hv j hj (i + 1) hij)

/-- `getD` of a `scanl (+)` run is the shifted prefix sum. -/
theorem scanl_getD (xs : List ℝ) : ∀ (a : ℝ) (i : ℕ), i ≤ xs.length →
    (xs.scanl (· + ·) a).getD i 0 = a + (xs.take i).sum := by
  induction xs with
  | nil =>
      intro a i hi
      rw [Nat.le_zero.mp hi]
      simp [List.scanl]
  | cons x xs ih =>
      intro a i hi
      cases i with
      | zero => simp [List.scanl]
      | succ j =>
          rw [List.scanl]
          rw [List.getD_cons_succ, ih (a + x) j (by simpa using hi)]
          simp [List.take_succ_cons]
          ring

theorem take_map_thickness (ls : List SoilLayer) (i : ℕ) :
    ((ls.map SoilLayer.thickness).take i).sum = bnd ls i := by
  rw [bnd, totalThickness, List.map_take]

/-- The boundaries array of the cache evaluates to `bnd`. -/
theorem boundaries_getD (ls : List SoilLayer) (hne : ls ≠ []) (i : ℕ)
    (hi : i ≤ ls.length) :
    (SoilProfileCache.from_layers ls).boundaries.getD i 0 = bnd ls i := by
  rw [SoilProfileCache.from_layers, if_neg hne]
  rw [scanl_getD _ 0 i (by simpa using hi), take_map_thickness]
  ring

theorem cum_gamma_getD (ls : List SoilLayer) (hne : ls ≠ []) (i : ℕ)
    (hi : i ≤ ls.length) :
    (SoilProfileCache.from_layers ls).cum_gamma.getD i 0 =
      ((ls.map (fun L => L.gamma_prime * L.thickness)).take i).sum := by
  rw [SoilProfileCache.from_layers, if_neg hne]
  rw [scanl_getD _ 0 i (by simpa using hi)]
  ring

theorem getD_map_of_lt (f : SoilLayer → ℝ) (ls : List SoilLayer) :
    ∀ i : ℕ, i < ls.length → (ls.map f).getD i 0 = f (ls.getD i default) := by
  induction ls with
  | nil => intro i hi; simp at hi
  | cons L rest ih =>
      intro i hi
      cases i with
      | zero => simp
      | succ j => simpa using ih j (by simpa using hi)

theorem getLastD_map (f : SoilLayer → ℝ) (ls : List SoilLayer) (hne : ls ≠ []) :
    (ls.map f).getLastD 0 = (ls.getLast?).elim 0 f := by
  induction ls with
  | nil => simp at hne
  | cons L rest ih =>
      cases hr : rest with
      | nil => simp [List.getLastD, List.getLast?]
      | cons M rest2 =>
          have h1 := ih (by simp [hr])
          rw [hr] at h1
          simpa [List.getLastD_cons, List.getLast?_cons_cons] using h1

theorem from_layers_gamma (ls : List SoilLayer) (hne : ls ≠ []) :
    (SoilProfileCache.from_layers ls).gamma_prime = ls.map SoilLayer.gamma_prime := by
  rw [SoilProfileCache.from_layers, if_neg hne]

theorem from_layers_phi (ls : List SoilLayer) (hne : ls ≠ []) :
    (SoilProfileCache.from_layers ls).phi = ls.map SoilLayer.phi := by
  rw [SoilProfileCache.from_layers, if_neg hne]

theorem from_layers_cu (ls : List SoilLayer) (hne : ls ≠ []) :
    (SoilProfileCache.from_layers ls).cu = ls.map cuVal := by
  rw [SoilProfileCache.from_layers, if_neg hne]

theorem from_layers_total (ls : List SoilLayer) (hne : ls ≠ []) :
    (SoilProfileCache.from_layers ls).total_thickness = totalThickness ls := by
  rw [SoilProfileCache.from_layers, if_neg hne]

theorem from_layers_boundaries (ls : List SoilLayer) (hne : ls ≠ []) :
    (SoilProfileCache.from_layers ls).boundaries =
      (ls.map SoilLayer.thickness).scanl (· + ·) 0 := by
  rw [SoilProfileCache.from_layers, if_neg hne]

theorem boundaries_length (ls : List SoilLayer) (hne : ls ≠ []) :
    (SoilProfileCache.from_layers ls).boundaries.length = ls.length + 1 := by
  rw [from_layers_boundaries ls hne, List.length_scanl, List.length_map]

/-- Elementary facts about `takeWhile`: every element of the taken prefix
satisfies the predicate and the first element after it (if any) does not. -/
theorem takeWhile_facts (p : ℝ → Bool) (bs : List ℝ) :
    (∀ i : ℕ, i < (bs.takeWhile p).length → p (bs.getD i 0) = true) ∧
    ((bs.takeWhile p).length < bs.length →
      p (bs.getD (bs.takeWhile p).length 0) = false) ∧
    (bs.takeWhile p).length ≤ bs.length := by
  induction bs with
  | nil => refine ⟨fun i hi => by simp at hi, fun h => by simp at h, by simp⟩
  | cons b bs ih =>
      by_cases hb : p b = true
      · rw [List.takeWhile_cons, if_pos hb]
        refine ⟨?_, ?_, by simpa using ih.2.2⟩
        · intro i hi
          cases i with
          | zero => simpa using hb
          | succ j =>
              rw [List.getD_cons_succ]
              exact ih.1 j (by simpa using hi)
        · intro h
          rw [List.length_cons, List.getD_cons_succ]
          exact ih.2.1 (by simpa using h)
      · rw [List.takeWhile_cons, if_neg hb]
        refine ⟨fun i hi => by simp at hi, ?_, by simp⟩
        intro _
        simpa using Bool.eq_false_iff.mpr hb

/-- Bracket property of `_layer_index` in the interior case: for a valid
nonempty profile and `0 < depth < total`, the returned index `k` satisfies
`bnd k < depth ≤ bnd (k+1)` and `k < n`. -/
theorem layerIndex_bracket (ls : List SoilLayer)
    (hv : ∀ L ∈ ls, 0 < L.thickness) (hne : ls ≠ []) (depth : ℝ)
    (h0 : 0 < depth) (hlt : depth < totalThickness ls) :
    (SoilProfileCache.from_layers ls).layerIndex depth < ls.length ∧
    bnd ls ((SoilProfileCache.from_layers ls).layerIndex depth) < depth ∧
    depth ≤ bnd ls ((SoilProfileCache.from_layers ls).layerIndex depth + 1) := by
  have hgne : (SoilProfileCache.from_layers ls).gamma_prime ≠ [] := by
    rw [from_layers_gamma ls hne]
    simpa using hne
  have hn1 : 1 ≤ ls.length := by
    cases ls with
    | nil => exact absurd rfl hne
    | cons a l => simp
  have hblen : (SoilProfileCache.from_layers ls).boundaries.length = ls.length + 1 :=
    boundaries_length ls hne
  set bs := (SoilProfileCache.from_layers ls).boundaries with hbs
  set m := (bs.takeWhile (fun b => decide (b < depth))).length with hm
  have hfacts := takeWhile_facts (fun b => decide (b < depth)) bs
  have hgetDb : ∀ i : ℕ, i ≤ ls.length → bs.getD i 0 = bnd ls i := fun i hi =>
    boundaries_getD ls hne i hi
  have hmlen : m ≤ ls.length + 1 := by rw [← hblen]; exact hfacts.2.2
  have hm1 : 1 ≤ m := by
    by_contra h
    push_neg at h
    have hm0 : m = 0 := Nat.lt_one_iff.mp h
    have h2 := hfacts.2.1 (by rw [← hm, hm0, hblen]; omega)
    rw [← hm, hm0, hgetDb 0 (by omega), bnd_zero] at h2
    have h3 : ¬ ((0 : ℝ) < depth) := of_decide_eq_false h2
    exact h3 h0
  have hmn : m ≤ ls.length := by
    by_contra h
    push_neg at h
    have h2 := hfacts.1 ls.length (by omega)
    rw [hgetDb ls.length le_rfl, bnd_length] at h2
    have h3 : totalThickness ls < depth := of_decide_eq_true h2
    linarith
  have hlow : bnd ls (m - 1) < depth := by
    have h2 := hfacts.1 (m - 1) (by omega)
    rw [hgetDb (m - 1) (by omega)] at h2
    exact of_decide_eq_true h2
  have hhigh : depth ≤ bnd ls m := by
    have h2 := hfacts.2.1 (by omega)
    rw [hgetDb m (by omega)] at h2
    exact not_lt.mp (of_decide_eq_false h2)
  have hkval : (SoilProfileCache.from_layers ls).layerIndex depth = m - 1 := by
    rw [SoilProfileCache.layerIndex, if_neg hgne, if_neg (by linarith),
      if_neg (by rw [from_layers_total ls hne]; push_neg; exact hlt)]
    have hglen : (SoilProfileCache.from_layers ls).gamma_prime.length = ls.length := by
      rw [from_layers_gamma ls hne, List.length_map]
    rw [hglen]
    simp only [← hbs, ← hm]
    omega
  rw [hkval]
  refine ⟨by omega, hlow, ?_⟩
  have : m - 1 + 1 = m := by omega
  rw [this]
  exact hhigh

/-- The uncached window loop computes the clamped-overlap sums. -/
theorem windowAccum_eq_sum (f : SoilLayer → ℝ) (zs ze : ℝ) :
    ∀ (ls : List SoilLayer) (z : ℝ),
      windowAccum f zs ze ls z =
        (∑ i ∈ Finset.range ls.length,
            max 0 (min (z + bnd ls (i + 1)) ze - max (z + bnd ls i) zs),
         ∑ i ∈ Finset.range ls.length,
            f (ls.getD i default) *
              max 0 (min (z + bnd ls (i + 1)) ze - max (z + bnd ls i) zs)) := by
  intro ls
  induction ls with
  | nil => intro z; simp [windowAccum]
  | cons L rest ih =>
      intro z
      have hb1 : bnd (L :: rest) 1 = L.thickness := by
        rw [bnd_cons_succ, bnd_zero, add_zero]
      have hshift1 : ∀ i : ℕ,
          max 0 (min (z + bnd (L :: rest) (i + 1 + 1)) ze -
            max (z + bnd (L :: rest) (i + 1)) zs) =
          max 0 (min (z + L.thickness + bnd rest (i + 1)) ze -
            max (z + L.thickness + bnd rest i) zs) := by
        intro i
        rw [bnd_cons_succ, bnd_cons_succ L rest i, ← add_assoc, ← add_assoc]
      have hsum1 :
          (∑ i ∈ Finset.range (L :: rest).length,
            max 0 (min (z + bnd (L :: rest) (i + 1)) ze -
              max (z + bnd (L :: rest) i) zs)) =
          (∑ i ∈ Finset.range rest.length,
            max 0 (min (z + L.thickness + bnd rest (i + 1)) ze -
              max (z + L.thickness + bnd rest i) zs)) +
            max 0 (min (z + L.thickness) ze - max z zs) := by
        rw [List.length_cons, Finset.sum_range_succ']
        congr 1
        · exact Finset.sum_congr rfl fun i _ => hshift1 i
        · rw [hb1, bnd_zero, add_zero]
      rw [windowAccum]
      rw [ih (z + L.thickness)]
      have hsum2' :
          (∑ i ∈ Finset.range (L :: rest).length,
            f ((L :: rest).getD i default) *
              max 0 (min (z + bnd (L :: rest) (i + 1)) ze -
                max (z + bnd (L :: rest) i) zs)) =
          (∑ i ∈ Finset.range rest.length,
            f (rest.getD i default) *
              max 0 (min (z + L.thickness + bnd rest (i + 1)) ze -
                max (z + L.thickness + bnd rest i) zs)) +
            f L * max 0 (min (z + L.thickness) ze - max z zs) := by
        rw [List.length_cons, Finset.sum_range_succ']
        congr 1
        · refine Finset.sum_congr rfl fun i _ => ?_
          rw [List.getD_cons_succ, hshift1 i]
        · rw [List.getD_cons_zero, hb1, bnd_zero, add_zero]
      rw [Prod.ext_iff]
      constructor
      · show (if min (z + L.thickness) ze - max z zs ≤ 0 then _ else _ : ℝ × ℝ).1 = _
        rcases le_or_lt (min (z + L.thickness) ze - max z zs) 0 with hh | hh
        · rw [if_pos hh]
          rw [hsum1, max_eq_left hh, add_zero]
        · rw [if_neg (not_le.mpr hh)]
          rw [hsum1, max_eq_right hh.le]
      · show (if min (z + L.thickness) ze - max z zs ≤ 0 then _ else _ : ℝ × ℝ).2 = _
        rcases le_or_lt (min (z + L.thickness) ze - max z zs) 0 with hh | hh
        · rw [if_pos hh]
          rw [hsum2', max_eq_left hh, mul_zero, add_zero]
        · rw [if_neg (not_le.mpr hh)]
          rw [hsum2', max_eq_right hh.le]

theorem list_range'_sum (f : ℕ → ℝ) : ∀ k lo : ℕ,
    ((List.range' lo k).map f).sum = ∑ i ∈ Finset.Ico lo (lo + k), f i := by
  intro k
  induction k with
  | zero => intro lo; simp
  | succ k ih =>
      intro lo
      rw [List.range'_succ, List.map_cons, List.sum_cons, ih (lo + 1),
        show lo + 1 + k = lo + (k + 1) from by omega]
      exact (Finset.sum_eq_sum_Ico_succ_bot (by omega) f).symm

theorem foldr_accum (g w : ℕ → ℝ) : ∀ l : List ℕ,
    (l.foldr
      (fun i acc => if g i ≤ 0 then acc else (acc.1 + g i, acc.2 + w i * g i))
      ((0 : ℝ), (0 : ℝ))) =
    ((l.map fun i => max 0 (g i)).sum, (l.map fun i => w i * max 0 (g i)).sum) := by
  intro l
  induction l with
  | nil => simp
  | cons a l ih =>
      rw [List.foldr_cons, ih]
      rcases le_or_lt (g a) 0 with h | h
      · rw [if_pos h, Prod.ext_iff]
        constructor <;> simp [max_eq_left h]
      · rw [if_neg (not_le.mpr h), Prod.ext_iff]
        constructor <;> simp [max_eq_right h.le, add_comm]

/-- The cached index loop computes the clamped-overlap sums over the index
interval `[lo, hi]`. -/
theorem idxAccum_eq_sum (c : SoilProfileCache) (vals : List ℝ) (zs ze : ℝ)
    (lo hi : ℕ) :
    c.idxAccum vals zs ze lo hi =
      (∑ i ∈ Finset.Ico lo (hi + 1),
          max 0 (min (c.boundaries.getD (i + 1) 0) ze -
            max (c.boundaries.getD i 0) zs),
       ∑ i ∈ Finset.Ico lo (hi + 1),
          vals.getD i 0 *
            max 0 (min (c.boundaries.getD (i + 1) 0) ze -
              max (c.boundaries.getD i 0) zs)) := by
  rcases le_or_lt lo (hi + 1) with hlo | hlo
  · have h1 := foldr_accum
      (fun i => min (c.boundaries.getD (i + 1) 0) ze - max (c.boundaries.getD i 0) zs)
      (fun i => vals.getD i 0) (List.range' lo (hi + 1 - lo))
    have h2 := list_range'_sum
      (fun i => max 0 (min (c.boundaries.getD (i + 1) 0) ze -
        max (c.boundaries.getD i 0) zs)) (hi + 1 - lo) lo
    have h3 := list_range'_sum
      (fun i => vals.getD i 0 *
        max 0 (min (c.boundaries.getD (i + 1) 0) ze -
          max (c.boundaries.getD i 0) zs)) (hi + 1 - lo) lo
    rw [show lo + (hi + 1 - lo) = hi + 1 from by omega] at h2 h3
    rw [SoilProfileCache.idxAccum]
    exact h1.trans (by rw [h2, h3])
  · have hcount : hi + 1 - lo = 0 := by omega
    have hico : Finset.Ico lo (hi + 1) = ∅ := Finset.Ico_eq_empty (by omega)
    rw [SoilProfileCache.idxAccum, hcount, hico]
    simp

theorem layerIndex_of_nonpos (c : SoilProfileCache) (depth : ℝ)
    (h : depth ≤ 0) : c.layerIndex depth = 0 := by
  rw [SoilProfileCache.layerIndex]
  by_cases hg : c.gamma_prime = []
  · rw [if_pos hg]
  · rw [if_neg hg, if_pos h]

theorem totalThickness_pos (ls : List SoilLayer)
    (hv : ∀ L ∈ ls, 0 < L.thickness) (hne : ls ≠ []) :
    0 < totalThickness ls := by
  have hn : 0 < ls.length := List.length_pos.mpr hne
  have := bnd_strict_mono ls hv 0 ls.length hn le_rfl
  rwa [bnd_zero, bnd_length] at this

theorem from_layers_gamma_ne (ls : List SoilLayer) (hne : ls ≠ []) :
    (SoilProfileCache.from_layers ls).gamma_prime ≠ [] := by
  rw [from_layers_gamma ls hne]
  simpa using hne

theorem from_layers_gamma_length (ls : List SoilLayer) (hne : ls ≠ []) :
    (SoilProfileCache.from_layers ls).gamma_prime.length = ls.length := by
  rw [from_layers_gamma ls hne, List.length_map]

theorem layerIndex_of_ge_total (ls : List SoilLayer)
    (hv : ∀ L ∈ ls, 0 < L.thickness) (hne : ls ≠ []) (depth : ℝ)
    (h : totalThickness ls ≤ depth) :
    (SoilProfileCache.from_layers ls).layerIndex depth = ls.length - 1 := by
  rw [SoilProfileCache.layerIndex, if_neg (from_layers_gamma_ne ls hne),
    if_neg (by push_neg; linarith [totalThickness_pos ls hv hne]),
    if_pos (by rw [from_layers_total ls hne]; exact h),
    from_layers_gamma_length ls hne]

theorem layerIndex_lt_length (ls : List SoilLayer) (hne : ls ≠ []) (depth : ℝ) :
    (SoilProfileCache.from_layers ls).layerIndex depth < ls.length := by
  have hn : 0 < ls.length := List.length_pos.mpr hne
  rw [SoilProfileCache.layerIndex, if_neg (from_layers_gamma_ne ls hne)]
  by_cases h1 : depth ≤ 0
  · rw [if_pos h1]; exact hn
  · rw [if_neg h1]
    by_cases h2 : (SoilProfileCache.from_layers ls).total_thickness ≤ depth
    · rw [if_pos h2, from_layers_gamma_length ls hne]; omega
    · rw [if_neg h2, from_layers_gamma_length ls hne]
      refine lt_of_le_of_lt (min_le_right _ _) ?_
      omega

/-- Overlap terms strictly outside the `[start_idx, end_idx]` interval used by
the cached loops are nonpositive, hence clamped to 0. -/
theorem window_term_vanish (ls : List SoilLayer)
    (hv : ∀ L ∈ ls, 0 < L.thickness) (hne : ls ≠ []) (zs ze : ℝ) (i : ℕ)
    (hin : i < ls.length)
    (hout : i < (SoilProfileCache.from_layers ls).layerIndex zs ∨
      (SoilProfileCache.from_layers ls).layerIndex (min ze (totalThickness ls)) < i) :
    min (bnd ls (i + 1)) ze - max (bnd ls i) zs ≤ 0 := by
  have htot : 0 < totalThickness ls := totalThickness_pos ls hv hne
  rcases hout with hlt | hgt
  · -- i strictly below start_idx
    have hzs : 0 < zs := by
      by_contra h
      push_neg at h
      rw [layerIndex_of_nonpos _ zs h] at hlt
      omega
    rcases lt_or_le zs (totalThickness ls) with hzt | hzt
    · obtain ⟨hk, hlow, -⟩ := layerIndex_bracket ls hv hne zs hzs hzt
      have h1 : bnd ls (i + 1) ≤
          bnd ls ((SoilProfileCache.from_layers ls).layerIndex zs) :=
        bnd_mono ls hv _ hk.le (i + 1) hlt
      have h2 : min (bnd ls (i + 1)) ze ≤ bnd ls (i + 1) := min_le_left _ _
      have h3 : zs ≤ max (bnd ls i) zs := le_max_right _ _
      linarith
    · rw [layerIndex_of_ge_total ls hv hne zs hzt] at hlt
      have h1 : bnd ls (i + 1) ≤ totalThickness ls := by
        rw [← bnd_length ls]
        exact bnd_mono ls hv ls.length le_rfl (i + 1) (by omega)
      have h2 : min (bnd ls (i + 1)) ze ≤ bnd ls (i + 1) := min_le_left _ _
      have h3 : zs ≤ max (bnd ls i) zs := le_max_right _ _
      linarith
  · -- i strictly above end_idx
    set mp := min ze (totalThickness ls) with hmp
    rcases le_or_lt mp 0 with hmp0 | hmp0
    · have hze : ze ≤ 0 := by
        rw [hmp] at hmp0
        rcases min_le_iff.mp hmp0 with h | h
        · exact h
        · linarith
      have h1 : min (bnd ls (i + 1)) ze ≤ ze := min_le_right _ _
      have h2 : (0 : ℝ) ≤ bnd ls i := bnd_nonneg ls hv i
      have h3 : bnd ls i ≤ max (bnd ls i) zs := le_max_left _ _
      linarith
    · rcases lt_or_le mp (totalThickness ls) with hmt | hmt
      · have hmze : mp = ze := by
          rw [hmp]
          rcases lt_or_le ze (totalThickness ls) with h | h
          · exact min_eq_left h.le
          · exfalso
            rw [hmp, min_eq_right h] at hmt
            exact lt_irrefl _ hmt
        obtain ⟨hk, -, hhigh⟩ := layerIndex_bracket ls hv hne mp hmp0 hmt
        have h1 : bnd ls ((SoilProfileCache.from_layers ls).layerIndex mp + 1) ≤
            bnd ls i := bnd_mono ls hv i hin.le _ (by omega)
        have h2 : min (bnd ls (i + 1)) ze ≤ ze := min_le_right _ _
        have h3 : bnd ls i ≤ max (bnd ls i) zs := le_max_left _ _
        have hhigh2 := hmze.symm.trans_le hhigh
        linarith
      · -- mp ≥ total: end_idx = n − 1, no index above it
        rw [layerIndex_of_ge_total ls hv hne mp hmt] at hgt
        omega

/-- The cached index loop over `[start_idx, end_idx]` computes exactly the
uncached window loop (terms outside the index bracket are clamped away). -/
theorem idxAccum_eq_windowAccum (ls : List SoilLayer)
    (hv : ∀ L ∈ ls, 0 < L.thickness) (hne : ls ≠ []) (f : SoilLayer → ℝ)
    (zs ze : ℝ) :
    (SoilProfileCache.from_layers ls).idxAccum (ls.map f) zs ze
      ((SoilProfileCache.from_layers ls).layerIndex zs)
      ((SoilProfileCache.from_layers ls).layerIndex (min ze (totalThickness ls))) =
    windowAccum f zs ze ls 0 := by
  have hhi_n : (SoilProfileCache.from_layers ls).layerIndex
      (min ze (totalThickness ls)) < ls.length := layerIndex_lt_length ls hne _
  have hsub : Finset.Ico ((SoilProfileCache.from_layers ls).layerIndex zs)
      ((SoilProfileCache.from_layers ls).layerIndex (min ze (totalThickness ls)) + 1)
      ⊆ Finset.range ls.length := by
    intro x hx
    rw [Finset.mem_Ico] at hx
    rw [Finset.mem_range]
    omega
  have hvan : ∀ x ∈ Finset.range ls.length,
      x ∉ Finset.Ico ((SoilProfileCache.from_layers ls).layerIndex zs)
        ((SoilProfileCache.from_layers ls).layerIndex (min ze (totalThickness ls)) + 1) →
      min (bnd ls (x + 1)) ze - max (bnd ls x) zs ≤ 0 := by
    intro x hx hnx
    rw [Finset.mem_range] at hx
    rw [Finset.mem_Ico] at hnx
    push_neg at hnx
    refine window_term_vanish ls hv hne zs ze x hx ?_
    rcases lt_or_le x ((SoilProfileCache.from_layers ls).layerIndex zs) with h | h
    · exact Or.inl h
    · exact Or.inr (by omega)
  rw [idxAccum_eq_sum, windowAccum_eq_sum, Prod.mk.injEq]
  simp only [zero_add]
  constructor
  · rw [← Finset.sum_subset hsub (fun x hx hnx => max_eq_left (hvan x hx hnx))]
    refine Finset.sum_congr rfl fun i hi => ?_
    rw [Finset.mem_Ico] at hi
    rw [boundaries_getD ls hne i (by omega), boundaries_getD ls hne (i + 1) (by omega)]
  · rw [← Finset.sum_subset hsub
      (fun x hx hnx => by rw [max_eq_left (hvan x hx hnx), mul_zero])]
    refine Finset.sum_congr rfl fun i hi => ?_
    rw [Finset.mem_Ico] at hi
    rw [boundaries_getD ls hne i (by omega), boundaries_getD ls hne (i + 1) (by omega),
      getD_map_of_lt f ls i (by omega)]

/-- The cached extrapolation step equals the uncached one. -/
theorem idxExtra_eq_windowExtra (ls : List SoilLayer) (hne : ls ≠ [])
    (g : SoilLayer → ℝ) (zs ze : ℝ) (acc : ℝ × ℝ) :
    (SoilProfileCache.from_layers ls).idxExtra (ls.map g) zs ze acc =
      windowExtra g ls zs ze acc := by
  rw [SoilProfileCache.idxExtra, windowExtra, from_layers_total ls hne,
    getLastD_map g ls hne, lastVal]

theorem totalThickness_nonneg' (ls : List SoilLayer)
    (hv : ∀ L ∈ ls, 0 ≤ L.thickness) : 0 ≤ totalThickness ls := by
  rw [totalThickness]
  apply List.sum_nonneg
  intro x hx
  rcases List.mem_map.mp hx with ⟨L, hL, rfl⟩
  exact hv L hL

theorem bnd_nonneg' (ls : List SoilLayer) (hv : ∀ L ∈ ls, 0 ≤ L.thickness)
    (i : ℕ) : 0 ≤ bnd ls i := by
  rw [bnd]
  exact totalThickness_nonneg' _ fun L hL => hv L (List.mem_of_mem_take hL)

theorem min_shift_diff (rem t x y : ℝ) (ht : 0 ≤ t) (hx : 0 ≤ x) (hy : 0 ≤ y) :
    min rem (t + x) - min rem (t + y) =
      min (rem - min t rem) x - min (rem - min t rem) y := by
  rcases le_total t rem with h | h
  · rw [min_eq_left h]
    have h1 : min rem (t + x) = t + min (rem - t) x := by
      nth_rewrite 1 [show rem = t + (rem - t) from by ring]
      rw [min_add_add_left]
    have h2 : min rem (t + y) = t + min (rem - t) y := by
      nth_rewrite 1 [show rem = t + (rem - t) from by ring]
      rw [min_add_add_left]
    rw [h1, h2]
    ring
  · rw [min_eq_right h, sub_self,
      min_eq_left (by linarith : rem ≤ t + x),
      min_eq_left (by linarith : rem ≤ t + y),
      min_eq_left hx, min_eq_left hy]
    ring

/-- First component of the overburden loop: telescoped clamped contribution of
each layer. -/
theorem overburdenLoop_fst (ls : List SoilLayer)
    (hv : ∀ L ∈ ls, 0 ≤ L.thickness) : ∀ rem : ℝ,
    (overburdenLoop ls rem).1 =
      ∑ i ∈ Finset.range ls.length,
        (ls.getD i default).gamma_prime *
          (min rem (bnd ls (i + 1)) - min rem (bnd ls i)) := by
  induction ls with
  | nil => intro rem; simp [overburdenLoop]
  | cons L rest ih =>
      intro rem
      have hvr : ∀ M ∈ rest, 0 ≤ M.thickness := fun M hM =>
        hv M (List.mem_cons.mpr (Or.inr hM))
      have ht : 0 ≤ L.thickness := hv L (List.mem_cons_self _ _)
      rcases le_or_lt rem 0 with h | h
      · rw [overburdenLoop, if_pos h]
        rw [eq_comm]
        refine Finset.sum_eq_zero fun i _ => ?_
        have h1 : min rem (bnd (L :: rest) (i + 1)) = rem :=
          min_eq_left (le_trans h (bnd_nonneg' _ hv _))
        have h2 : min rem (bnd (L :: rest) i) = rem :=
          min_eq_left (le_trans h (bnd_nonneg' _ hv _))
        rw [h1, h2, sub_self, mul_zero]
      · rw [overburdenLoop, if_neg (not_le.mpr h)]
        show L.gamma_prime * min L.thickness rem +
            (overburdenLoop rest (rem - min L.thickness rem)).1 = _
        rw [ih hvr (rem - min L.thickness rem)]
        rw [List.length_cons, Finset.sum_range_succ']
        have hg0 : (L :: rest).getD 0 default = L := rfl
        have hterm0 : ((L :: rest).getD 0 default).gamma_prime *
            (min rem (bnd (L :: rest) 1) - min rem (bnd (L :: rest) 0)) =
            L.gamma_prime * min L.thickness rem := by
          rw [hg0, show bnd (L :: rest) 1 = L.thickness from by
              rw [bnd_cons_succ, bnd_zero, add_zero],
            bnd_zero, min_eq_right h.le, sub_zero, min_comm]
        rw [hterm0]
        rw [add_comm]
        congr 1
        refine Finset.sum_congr rfl fun i _ => ?_
        rw [List.getD_cons_succ, bnd_cons_succ L rest (i + 1), bnd_cons_succ L rest i]
        rw [min_shift_diff rem L.thickness _ _ ht (bnd_nonneg' rest hvr _)
          (bnd_nonneg' rest hvr _)]

/-- Second component of the overburden loop: the unconsumed remainder. -/
theorem overburdenLoop_snd (ls : List SoilLayer)
    (hv : ∀ L ∈ ls, 0 ≤ L.thickness) : ∀ rem : ℝ, 0 ≤ rem →
    (overburdenLoop ls rem).2 = rem - min rem (totalThickness ls) := by
  induction ls with
  | nil =>
      intro rem hrem
      rw [overburdenLoop]
      show rem = rem - min rem (totalThickness [])
      rw [show totalThickness [] = 0 from by simp [totalThickness],
        min_eq_right hrem]
      ring
  | cons L rest ih =>
      intro rem hrem
      have hvr : ∀ M ∈ rest, 0 ≤ M.thickness := fun M hM =>
        hv M (List.mem_cons.mpr (Or.inr hM))
      have ht : 0 ≤ L.thickness := hv L (List.mem_cons_self _ _)
      have htot : totalThickness (L :: rest) = L.thickness + totalThickness rest := by
        simp [totalThickness]
      rcases le_or_lt rem 0 with h | h
      · have hrem0 : rem = 0 := le_antisymm h hrem
        rw [overburdenLoop, if_pos h, hrem0]
        show (0 : ℝ) = 0 - min 0 (totalThickness (L :: rest))
        rw [min_eq_left (by rw [htot]; linarith [totalThickness_nonneg' rest hvr])]
        ring
      · rw [overburdenLoop, if_neg (not_le.mpr h)]
        show (overburdenLoop rest (rem - min L.thickness rem)).2 = _
        rw [ih hvr _ (by
          rcases le_total L.thickness rem with h2 | h2
          · rw [min_eq_left h2]; linarith
          · rw [min_eq_right h2]; linarith)]
        rw [htot]
        rcases le_total L.thickness rem with h2 | h2
        · rw [min_eq_left h2]
          have h3 : min rem (L.thickness + totalThickness rest) =
              L.thickness + min (rem - L.thickness) (totalThickness rest) := by
            nth_rewrite 1 [show rem = L.thickness + (rem - L.thickness) from by ring]
            rw [min_add_add_left]
          rw [h3]
          ring
        · rw [min_eq_right h2, sub_self,
            min_eq_left (totalThickness_nonneg' rest hvr),
            min_eq_left (by linarith [totalThickness_nonneg' rest hvr])]
          ring

theorem scanl_getLastD (xs : List ℝ) : ∀ a d : ℝ,
    (xs.scanl (· + ·) a).getLastD d = a + xs.sum := by
  induction xs with
  | nil => intro a d; simp [List.scanl]
  | cons x xs ih =>
      intro a d
      rw [List.scanl, List.getLastD_cons, ih (a + x) a, List.sum_cons]
      ring

theorem sum_take_eq_sum_range (f : SoilLayer → ℝ) (ls : List SoilLayer) :
    ∀ k : ℕ, k ≤ ls.length →
      ((ls.map f).take k).sum = ∑ i ∈ Finset.range k, f (ls.getD i default) := by
  induction ls with
  | nil =>
      intro k hk
      rw [Nat.le_zero.mp hk]
      simp
  | cons L rest ih =>
      intro k hk
      cases k with
      | zero => simp
      | succ j =>
          rw [List.map_cons, List.take_succ_cons, List.sum_cons,
            ih j (by simpa using hk), Finset.sum_range_succ']
          rw [add_comm]
          congr 1

theorem from_layers_nil_gamma :
    (SoilProfileCache.from_layers ([] : List SoilLayer)).gamma_prime = [] := by
  rw [SoilProfileCache.from_layers, if_pos rfl]

theorem from_layers_cum (ls : List SoilLayer) (hne : ls ≠ []) :
    (SoilProfileCache.from_layers ls).cum_gamma =
      (ls.map (fun L => L.gamma_prime * L.thickness)).scanl (· + ·) 0 := by
  rw [SoilProfileCache.from_layers, if_neg hne]

/-- Cached and uncached overburden stress agree for every valid profile and
every depth. -/
theorem cache_overburden_eq (ls : List SoilLayer)
    (hv : ∀ L ∈ ls, 0 < L.thickness) (d : ℝ) :
    (SoilProfileCache.from_layers ls).overburden_stress d =
      overburden_stress ls d := by
  by_cases hne : ls = []
  · subst hne
    rw [SoilProfileCache.overburden_stress, if_pos (Or.inr from_layers_nil_gamma),
      overburden_stress, if_pos (Or.inl rfl)]
  · by_cases hd : d ≤ 0
    · rw [SoilProfileCache.overburden_stress, if_pos (Or.inl hd),
        overburden_stress, if_pos (Or.inr hd)]
    · have hv' : ∀ L ∈ ls, 0 ≤ L.thickness := fun L hL => (hv L hL).le
      have hd' : 0 < d := not_le.mp hd
      have hfst := overburdenLoop_fst ls hv' d
      have hsnd := overburdenLoop_snd ls hv' d hd'.le
      have hglast : (SoilProfileCache.from_layers ls).gamma_prime.getLastD 0 =
          lastGamma ls := by
        rw [from_layers_gamma ls hne,
          getLastD_map SoilLayer.gamma_prime ls hne, lastGamma]
      rw [overburden_stress,
        if_neg (by rintro (h | h); exacts [hne h, hd h]),
        SoilProfileCache.overburden_stress,
        if_neg (by rintro (h | h); exacts [hd h, from_layers_gamma_ne ls hne h])]
      by_cases htd : (SoilProfileCache.from_layers ls).total_thickness ≤ d
      · rw [from_layers_total ls hne] at htd
        rw [if_pos (by rw [from_layers_total ls hne]; exact htd)]
        have hcum : (SoilProfileCache.from_layers ls).cum_gamma.getLastD 0 =
            (ls.map (fun L => L.gamma_prime * L.thickness)).sum := by
          rw [from_layers_cum ls hne, scanl_getLastD, zero_add]
        have hs1 : (overburdenLoop ls d).1 =
            (ls.map (fun L => L.gamma_prime * L.thickness)).sum := by
          rw [hfst]
          rw [show (ls.map fun L => L.gamma_prime * L.thickness).sum =
              ((ls.map fun L => L.gamma_prime * L.thickness).take ls.length).sum
            from by rw [List.take_of_length_le (by rw [List.length_map])]]
          rw [sum_take_eq_sum_range _ ls ls.length le_rfl]
          refine Finset.sum_congr rfl fun i hi => ?_
          rw [Finset.mem_range] at hi
          have hb1 : bnd ls (i + 1) ≤ d :=
            le_trans (by rw [← bnd_length ls]
                         exact bnd_mono ls hv ls.length le_rfl (i + 1) hi) htd
          have hb0 : bnd ls i ≤ d :=
            le_trans (by rw [← bnd_length ls]
                         exact bnd_mono ls hv ls.length le_rfl i hi.le) htd
          rw [min_eq_right hb1, min_eq_right hb0, bnd_succ ls i hi]
          ring
        have hs2 : (overburdenLoop ls d).2 = d - totalThickness ls := by
          rw [hsnd, min_eq_right htd]
        show _ = (overburdenLoop ls d).1 +
          (if 0 < (overburdenLoop ls d).2 then
            lastGamma ls * (overburdenLoop ls d).2 else 0)
        rw [hs1, hs2, hcum, from_layers_total ls hne, hglast]
        rcases eq_or_lt_of_le (by linarith : (0 : ℝ) ≤ d - totalThickness ls)
          with h0 | h0
        · rw [if_neg (by rw [← h0]; exact lt_irrefl 0), ← h0]
          ring
        · rw [if_pos h0]
      · rw [if_neg htd]
        rw [from_layers_total ls hne] at htd
        push_neg at htd
        obtain ⟨hk, hlow, hhigh⟩ := layerIndex_bracket ls hv hne d hd' htd
        set k := (SoilProfileCache.from_layers ls).layerIndex d with hkdef
        show (SoilProfileCache.from_layers ls).cum_gamma.getD k 0 +
            (SoilProfileCache.from_layers ls).gamma_prime.getD k 0 *
              (d - (SoilProfileCache.from_layers ls).boundaries.getD k 0) =
          (overburdenLoop ls d).1 +
          (if 0 < (overburdenLoop ls d).2 then
            lastGamma ls * (overburdenLoop ls d).2 else 0)
        have hs2 : (overburdenLoop ls d).2 = 0 := by
          rw [hsnd, min_eq_left htd.le]
          ring
        have hs1 : (overburdenLoop ls d).1 =
            (∑ i ∈ Finset.range k,
              (ls.getD i default).gamma_prime * (ls.getD i default).thickness) +
            (ls.getD k default).gamma_prime * (d - bnd ls k) := by
          rw [hfst]
          rw [← Finset.sum_range_add_sum_Ico _ (show k + 1 ≤ ls.length from hk)]
          rw [Finset.sum_range_succ]
          have hico0 : ∑ i ∈ Finset.Ico (k + 1) ls.length,
              (ls.getD i default).gamma_prime *
                (min d (bnd ls (i + 1)) - min d (bnd ls i)) = 0 := by
            refine Finset.sum_eq_zero fun i hi => ?_
            rw [Finset.mem_Ico] at hi
            have hb0 : d ≤ bnd ls i := le_trans hhigh
              (bnd_mono ls hv i hi.2.le (k + 1) hi.1)
            have hb1 : d ≤ bnd ls (i + 1) := le_trans hb0
              (bnd_mono ls hv (i + 1) hi.2 i (by omega))
            rw [min_eq_left hb1, min_eq_left hb0, sub_self, mul_zero]
          rw [hico0, add_zero]
          congr 1
          · refine Finset.sum_congr rfl fun i hi => ?_
            rw [Finset.mem_range] at hi
            have hb1 : bnd ls (i + 1) ≤ d :=
              le_trans (bnd_mono ls hv k hk.le (i + 1) hi) hlow.le
            have hb0 : bnd ls i ≤ d := le_trans (bnd_mono ls hv k hk.le i
              (by omega)) hlow.le
            rw [min_eq_right hb1, min_eq_right hb0,
              bnd_succ ls i (lt_of_lt_of_le hi hk.le)]
            ring
          · rw [min_eq_left hhigh, min_eq_right hlow.le]
        rw [hs1, hs2, if_neg (lt_irrefl 0), add_zero]
        have hcumk : (SoilProfileCache.from_layers ls).cum_gamma.getD k 0 =
            ∑ i ∈ Finset.range k,
              (ls.getD i default).gamma_prime * (ls.getD i default).thickness := by
          rw [cum_gamma_getD ls hne k hk.le, sum_take_eq_sum_range _ ls k hk.le]
        rw [hcumk, boundaries_getD ls hne k hk.le, from_layers_gamma ls hne,
          getD_map_of_lt SoilLayer.gamma_prime ls k hk]

theorem from_layers_nil_phi :
    (SoilProfileCache.from_layers ([] : List SoilLayer)).phi = [] := by
  rw [SoilProfileCache.from_layers, if_pos rfl]

theorem from_layers_nil_cu :
    (SoilProfileCache.from_layers ([] : List SoilLayer)).cu = [] := by
  rw [SoilProfileCache.from_layers, if_pos rfl]

/-- Cached and uncached `average_cu_below` agree on a nonempty valid profile
for a positive window. -/
theorem cache_average_cu_main (ls : List SoilLayer)
    (hv : ∀ L ∈ ls, 0 < L.thickness) (hne : ls ≠ []) (d z : ℝ) (hz : 0 < z) :
    (SoilProfileCache.from_layers ls).average_cu_below d z =
      average_cu_below ls d z := by
  have hcune : (SoilProfileCache.from_layers ls).cu ≠ [] := by
    rw [from_layers_cu ls hne]
    simpa using hne
  have hcond1 : ¬ ((SoilProfileCache.from_layers ls).cu = [] ∨ z ≤ 0) := by
    rintro (h | h)
    exacts [hcune h, absurd hz (not_lt.mpr h)]
  have hcond2 : ¬ (ls = [] ∨ z ≤ 0) := by
    rintro (h | h)
    exacts [hne h, absurd hz (not_lt.mpr h)]
  rw [SoilProfileCache.average_cu_below, if_neg hcond1, average_cu_below,
    if_neg hcond2]
  simp only [from_layers_cu ls hne, from_layers_total ls hne]
  rw [idxAccum_eq_windowAccum ls hv hne cuVal d (d + z),
    idxExtra_eq_windowExtra ls hne cuVal d (d + z)]

/-- Cached and uncached `average_sand_props_below` agree on a nonempty valid
profile for a positive window. -/
theorem cache_average_sand_main (ls : List SoilLayer)
    (hv : ∀ L ∈ ls, 0 < L.thickness) (hne : ls ≠ []) (d z : ℝ) (hz : 0 < z) :
    (SoilProfileCache.from_layers ls).average_sand_props_below d z =
      average_sand_props_below ls d z := by
  have hphine : (SoilProfileCache.from_layers ls).phi ≠ [] := by
    rw [from_layers_phi ls hne]
    simpa using hne
  have hgane : (SoilProfileCache.from_layers ls).gamma_prime ≠ [] :=
    from_layers_gamma_ne ls hne
  have hcond1 : ¬ ((SoilProfileCache.from_layers ls).phi = [] ∨
      (SoilProfileCache.from_layers ls).gamma_prime = [] ∨ z ≤ 0) := by
    rintro (h | h | h)
    exacts [hphine h, hgane h, absurd hz (not_lt.mpr h)]
  have hcond2 : ¬ (ls = [] ∨ z ≤ 0) := by
    rintro (h | h)
    exacts [hne h, absurd hz (not_lt.mpr h)]
  rw [SoilProfileCache.average_sand_props_below, if_neg hcond1,
    average_sand_props_below, if_neg hcond2]
  simp only [from_layers_phi ls hne, from_layers_gamma ls hne,
    from_layers_total ls hne]
  rw [idxAccum_eq_windowAccum ls hv hne SoilLayer.phi d (d + z),
    idxExtra_eq_windowExtra ls hne SoilLayer.phi d (d + z),
    idxAccum_eq_windowAccum ls hv hne SoilLayer.gamma_prime d (d + z),
    idxExtra_eq_windowExtra ls hne SoilLayer.gamma_prime d (d + z),
    getLastD_map SoilLayer.phi ls hne, getLastD_map SoilLayer.gamma_prime ls hne]

/-! ## Claim C1: cache-vs-uncached equivalence (amended) -/

/-- C1 (amended): on every valid profile the cached `overburden_stress` and
`average_sand_props_below` agree exactly with the uncached helpers at every
`(d, z_thickness)` — including `z_thickness ≤ 0` and windows past the profile —
and `average_cu_below` agrees whenever `z_thickness > 0`; at `z_thickness ≤ 0`
it also agrees unless the last layer has `cu` set to exactly 0 with `c ≠ 0`
(there the uncached helper's Python `cu or c` falls back to `c` while the
cache keeps `cu = 0`). -/
theorem claim_C1_cache_matches_uncached (ls : List SoilLayer)
    (hv : ∀ L ∈ ls, 0 < L.thickness) (d z_thickness : ℝ) :
    ((SoilProfileCache.from_layers ls).overburden_stress d =
      overburden_stress ls d) ∧
    ((SoilProfileCache.from_layers ls).average_sand_props_below d z_thickness =
      average_sand_props_below ls d z_thickness) ∧
    ((0 < z_thickness ∨ ∀ L, ls.getLast? = some L → L.cu = some 0 → L.c = 0) →
      (SoilProfileCache.from_layers ls).average_cu_below d z_thickness =
        average_cu_below ls d z_thickness) := by
  refine ⟨cache_overburden_eq ls hv d, ?_, ?_⟩
  · by_cases hne : ls = []
    · subst hne
      rw [SoilProfileCache.average_sand_props_below,
        if_pos (Or.inl from_layers_nil_phi), average_sand_props_below,
        if_pos (Or.inl rfl)]
      rw [if_neg (by rintro ⟨h, -⟩; exact h from_layers_nil_phi)]
      rfl
    · rcases lt_or_le 0 z_thickness with hz | hz
      · exact cache_average_sand_main ls hv hne d z_thickness hz
      · obtain ⟨L, hL⟩ := Option.isSome_iff_exists.mp
          (List.getLast?_isSome.mpr hne)
        rw [SoilProfileCache.average_sand_props_below,
          if_pos (Or.inr (Or.inr hz)), average_sand_props_below,
          if_pos (Or.inr hz), hL]
        rw [if_pos ⟨by rw [from_layers_phi ls hne]; simpa using hne,
          from_layers_gamma_ne ls hne⟩]
        rw [from_layers_phi ls hne, from_layers_gamma ls hne,
          getLastD_map SoilLayer.phi ls hne,
          getLastD_map SoilLayer.gamma_prime ls hne, hL]
        rfl
  · intro hcond
    by_cases hne : ls = []
    · subst hne
      rw [SoilProfileCache.average_cu_below,
        if_pos (Or.inl from_layers_nil_cu), average_cu_below,
        if_pos (Or.inl rfl), from_layers_nil_cu]
      rfl
    · rcases hcond with hz | hlast
      · exact cache_average_cu_main ls hv hne d z_thickness hz
      · rcases lt_or_le 0 z_thickness with hz | hz
        · exact cache_average_cu_main ls hv hne d z_thickness hz
        · obtain ⟨L, hL⟩ := Option.isSome_iff_exists.mp
            (List.getLast?_isSome.mpr hne)
          rw [SoilProfileCache.average_cu_below,
            if_pos (Or.inr hz), average_cu_below, if_pos (Or.inr hz),
            from_layers_cu ls hne, getLastD_map cuVal ls hne, hL]
          show cuVal L = cuOrC L
          rw [cuVal, cuOrC]
          match hcu : L.cu with
          | none => rfl
          | some v =>
              show v = if v = 0 then L.c else v
              by_cases hv0 : v = 0
              · have hc0 : L.c = 0 := hlast L hL (by rw [hcu, hv0])
                rw [if_pos hv0, hc0, hv0]
              · rw [if_neg hv0]

/-- C1 witness: the two-layer cache-test profile with a positive window. -/
theorem claim_C1_cache_matches_uncached_witness :
    ((SoilProfileCache.from_layers
        [⟨"layer1", 2, 10, 30, 0, some 20, none, none, none⟩,
         ⟨"layer2", 3, 12, 35, 0, some 40, none, none, none⟩]).overburden_stress 1 =
      overburden_stress
        [⟨"layer1", 2, 10, 30, 0, some 20, none, none, none⟩,
         ⟨"layer2", 3, 12, 35, 0, some 40, none, none, none⟩] 1) ∧
    ((SoilProfileCache.from_layers
        [⟨"layer1", 2, 10, 30, 0, some 20, none, none, none⟩,
         ⟨"layer2", 3, 12, 35, 0, some 40, none, none, none⟩]).average_sand_props_below 1 2 =
      average_sand_props_below
        [⟨"layer1", 2, 10, 30, 0, some 20, none, none, none⟩,
         ⟨"layer2", 3, 12, 35, 0, some 40, none, none, none⟩] 1 2) ∧
    ((SoilProfileCache.from_layers
        [⟨"layer1", 2, 10, 30, 0, some 20, none, none, none⟩,
         ⟨"layer2", 3, 12, 35, 0, some 40, none, none, none⟩]).average_cu_below 1 2 =
      average_cu_below
        [⟨"layer1", 2, 10, 30, 0, some 20, none, none, none⟩,
         ⟨"layer2", 3, 12, 35, 0, some 40, none, none, none⟩] 1 2) :=
  ⟨(claim_C1_cache_matches_uncached _
      (by intro L hL; rcases List.mem_cons.mp hL with h | h
          · rw [h]; norm_num
          · rw [List.mem_singleton] at h; rw [h]; norm_num) 1 2).1,
   (claim_C1_cache_matches_uncached _
      (by intro L hL; rcases List.mem_cons.mp hL with h | h
          · rw [h]; norm_num
          · rw [List.mem_singleton] at h; rw [h]; norm_num) 1 2).2.1,
   (claim_C1_cache_matches_uncached _
      (by intro L hL; rcases List.mem_cons.mp hL with h | h
          · rw [h]; norm_num
          · rw [List.mem_singleton] at h; rw [h]; norm_num) 1 2).2.2
     (Or.inl (by norm_num))⟩

/-- C1 counterexample to the claim as stated: a single valid layer with
`cu = 0` and `c = 5` makes the cached and uncached `average_cu_below`
disagree at `z_thickness = 0` — the uncached helper returns `c = 5`
(Python `cu or c`), the cache returns `cu = 0`. -/
theorem claim_C1_cache_counterexample :
    average_cu_below [⟨"L", 1, 10, 0, 5, some 0, none, none, none⟩] 0 0 = 5 ∧
    (SoilProfileCache.from_layers
      [⟨"L", 1, 10, 0, 5, some 0, none, none, none⟩]).average_cu_below 0 0 = 0 ∧
    ¬ (average_cu_below [⟨"L", 1, 10, 0, 5, some 0, none, none, none⟩] 0 0 =
      (SoilProfileCache.from_layers
        [⟨"L", 1, 10, 0, 5, some 0, none, none, none⟩]).average_cu_below 0 0) := by
  have h1 : average_cu_below [⟨"L", 1, 10, 0, 5, some 0, none, none, none⟩] 0 0 = 5 := by
    rw [average_cu_below, if_pos (Or.inr le_rfl)]
    norm_num [cuOrC]
  have h2 : (SoilProfileCache.from_layers
      [⟨"L", 1, 10, 0, 5, some 0, none, none, none⟩]).average_cu_below 0 0 = 0 := by
    rw [SoilProfileCache.average_cu_below, if_pos (Or.inr le_rfl),
      from_layers_cu _ (by simp), getLastD_map cuVal _ (by simp)]
    norm_num [cuVal]
  exact ⟨h1, h2, by rw [h1, h2]; norm_num⟩

end
